import Mathlib

/-!
Verification development for the pandas ujson object encoder
(`pandas/_libs/src/ujson/python/objToJSON.c`).

The definitions below are a shallow embedding of the C source. Machine
integers are modelled as `Int` (with `Int.tdiv` for C integer division,
which truncates toward zero); fallible C paths return `Option` or
`Except`; the mutable per-call encoder state is passed explicitly.
Line numbers in comments refer to objToJSON.c.
-/

namespace PandasUjson

/-- JSON type tags produced by the dispatcher, mirroring the `JT_*`
constants consumed by the ultrajson writer. -/
inductive JTYPE where
  | JT_NULL | JT_TRUE | JT_FALSE | JT_LONG | JT_DOUBLE | JT_UTF8
  | JT_OBJECT | JT_ARRAY | JT_INVALID
deriving DecidableEq, Repr

/-- Orientation values, from `enum PANDAS_FORMAT` (line 140). -/
inductive PandasFormat where
  | SPLIT | RECORDS | INDEX | COLUMNS | VALUES
deriving DecidableEq, Repr

/-- Datetime units, the `NPY_FR_*` constants used by this file. -/
inductive NpyDateUnit where
  | fr_s | fr_ms | fr_us | fr_ns
deriving DecidableEq, Repr

/-- Embeds `get_nat` (line 59): the not-a-time sentinel `NPY_MIN_INT64`. -/
def get_nat : Int := -9223372036854775808

/-- Fields of `PyObjectEncoder` (lines 115-134) that the date/time and
orientation logic reads; the writer callback table is external. -/
structure PyEncState where
  datetimeIso : Bool
  datetimeUnit : NpyDateUnit
  outputFormat : PandasFormat
  originalOutputFormat : PandasFormat
deriving DecidableEq, Repr

/-- Result of a dispatcher call: the JSON type tag assigned to
`tc->type` together with the staged `longValue` slot of the type
context (the only staging slot the verified claims read). -/
structure BeginResult where
  type : JTYPE
  longValue : Int
deriving DecidableEq, Repr

/-- Abbreviation for a dispatch outcome with an irrelevant staging slot. -/
def tagOnly (t : JTYPE) : BeginResult := { type := t, longValue := 0 }

/-- Classification of a staged numpy array element, as seen by
`NpyTypeToJSONType` (lines 540-604) after the dtype test and the cast
to the primitive C type: float dtypes carry whether the cast double is
nan or infinite, datetime/timedelta dtypes carry the int64-cast value,
integer dtypes carry the int64-cast value, bool dtypes the flag. -/
inductive NpyStaged where
  | fltElem (isNanOrInf : Bool)
  | dtElem (longVal : Int)
  | intElem (v : Int)
  | boolElem (b : Bool)
  | otherElem
deriving DecidableEq, Repr

/-- Embeds `NpyTypeToJSONType` (lines 540-604). A datetime or timedelta
element equal to the `get_nat` sentinel is classified `JT_NULL` before
any unit handling; otherwise the ISO flag selects `JT_UTF8` or
`JT_LONG` (lines 573-580). -/
def NpyTypeToJSONType (e : NpyStaged) (datetimeIso : Bool) : BeginResult :=
  match e with
  | .fltElem isNanOrInf =>
      if isNanOrInf then tagOnly .JT_NULL else tagOnly .JT_DOUBLE
  | .dtElem longVal =>
      if longVal = get_nat then tagOnly .JT_NULL
      else { type := if datetimeIso then .JT_UTF8 else .JT_LONG,
             longValue := longVal }
  | .intElem v => { type := .JT_LONG, longValue := v }
  | .boolElem b => tagOnly (if b then .JT_TRUE else .JT_FALSE)
  | .otherElem => tagOnly .JT_INVALID

/-- Scalar shapes distinguished by `Object_beginTypeContext`
(lines 1531-1746), in source dispatch order. Container branches
(arrays, frames, dicts, lists, ...) are modelled by their own iterator
embeddings below; here they are collapsed into `iterableObj`, whose
classification the date/time claims never inspect. For
`pydatetime`, `isNaT` is the `PyObject_TypeCheck(obj, cls_nat)` test;
for `npDatetimeScalar`, `obval` is the stored epoch value; for
`pydelta`, `valueNs` is the nanosecond payload obtained either from the
cached `value` attribute or from `total_seconds() * 1e9`
(lines 1670-1677). -/
inductive PyValue where
  | pybool (b : Bool)
  | pyNone
  | iterableObj
  | pyint (v : Int) (overflows : Bool)
  | pyfloat (isNanOrInf : Bool)
  | pybytes
  | pystr
  | pydecimal
  | pydatetime (isNaT : Bool)
  | pytime
  | npDatetimeScalar (obval : Int)
  | pydelta (valueNs : Int)
  | npIntegerScalar (v : Int) (overflows : Bool)
  | npBoolScalar (b : Bool)
  | npFloatScalar
  | zeroDimArray
deriving DecidableEq, Repr

/-- Embeds the timedelta unit rescaling of the `PyDelta_Check` branch
(lines 1679-1692): the nanosecond payload is divided, with C `/`
truncation toward zero, by the factor of the configured unit. -/
def deltaRescale (unit : NpyDateUnit) (value : Int) : Int :=
  match unit with
  | .fr_ns => value
  | .fr_us => Int.tdiv value 1000
  | .fr_ms => Int.tdiv value 1000000
  | .fr_s => Int.tdiv value 1000000000

/-- Embeds the scalar portion of `Object_beginTypeContext`
(lines 1531-1746), in source branch order. Each branch sets `tc->type`
and, where the source does, the staged `longValue`. The `goto INVALID`
paths are collapsed to `JT_INVALID`. In the `pydelta` branch the source
rescales `value` by the date unit BEFORE comparing it against the
`get_nat` sentinel (lines 1679-1704). -/
def Object_beginTypeContext (enc : PyEncState) (obj : PyValue) : BeginResult :=
  match obj with
  | .pybool b => tagOnly (if b then .JT_TRUE else .JT_FALSE)
  | .pyNone => tagOnly .JT_NULL
  | .iterableObj => tagOnly .JT_OBJECT
  | .pyint v overflows =>
      if overflows then tagOnly .JT_INVALID
      else { type := .JT_LONG, longValue := v }
  | .pyfloat isNanOrInf =>
      if isNanOrInf then tagOnly .JT_NULL else tagOnly .JT_DOUBLE
  | .pybytes => tagOnly .JT_UTF8
  | .pystr => tagOnly .JT_UTF8
  | .pydecimal => tagOnly .JT_DOUBLE
  | .pydatetime isNaT =>
      if isNaT then tagOnly .JT_NULL
      else tagOnly (if enc.datetimeIso then .JT_UTF8 else .JT_LONG)
  | .pytime => tagOnly .JT_UTF8
  | .npDatetimeScalar obval =>
      if obval = get_nat then tagOnly .JT_NULL
      else tagOnly (if enc.datetimeIso then .JT_UTF8 else .JT_LONG)
  | .pydelta valueNs =>
      let value := deltaRescale enc.datetimeUnit valueNs
      if value = get_nat then tagOnly .JT_NULL
      else { type := .JT_LONG, longValue := value }
  | .npIntegerScalar v overflows =>
      if overflows then tagOnly .JT_INVALID
      else { type := .JT_LONG, longValue := v }
  | .npBoolScalar b => tagOnly (if b then .JT_TRUE else .JT_FALSE)
  | .npFloatScalar => tagOnly .JT_DOUBLE
  | .zeroDimArray => tagOnly .JT_INVALID

/-- Return buffer of `JSON_EncodeObject` as seen by the caller `objToJSON`
(line 2182): either the inline stack scratch buffer (`ret == buffer`), a
heap buffer the writer grew into (`ret != buffer`, non-null), or a null
return. The writer itself is an external collaborator; only the
distinctions the caller tests are modelled. -/
inductive RetBuf where
  | scratch (text : String)
  | heap (text : String)
  | null
deriving DecidableEq, Repr

/-- Tests whether the returned pointer is a heap buffer grown beyond the
inline scratch buffer. -/
def RetBuf.isHeap : RetBuf → Bool
  | .heap _ => true
  | _ => false

/-- Text reachable through the returned pointer; the success path of
`objToJSON` only dereferences it when no error is flagged. -/
def RetBuf.text : RetBuf → String
  | .scratch t => t
  | .heap t => t
  | .null => ""

/-- State observable by `objToJSON` right after `JSON_EncodeObject`
returns (line 2182): the returned buffer, whether a Python exception is
pending (`PyErr_Occurred`), and the writer error slot `encoder->errorMsg`. -/
structure EncodeOutcome where
  ret : RetBuf
  pyErr : Bool
  errorMsg : Option String
deriving DecidableEq, Repr

/-- Python exception classes raised by the top-level call. -/
inductive PyExc where
  | valueError (msg : String)
  | typeError (msg : String)
  | overflowError (msg : String)
  | alreadyPending
deriving DecidableEq, Repr

/-- Outcome of the top-level call: the returned text (or `none` on
failure), the exception surfaced to the caller, and whether the
`encoder->free(ret)` call was executed on a heap-grown buffer. -/
structure TailResult where
  output : Option String
  raised : Option PyExc
  freedHeapRet : Bool
deriving DecidableEq, Repr

/-- Embeds the tail of `objToJSON` (lines 2185-2208): a pending Python
exception returns immediately; otherwise a non-empty writer error slot
frees a non-scratch return buffer and raises `OverflowError` with the
slot text; otherwise the text is returned and a non-scratch buffer is
freed after conversion. -/
def objToJSON_tail (o : EncodeOutcome) : TailResult :=
  if o.pyErr then
    { output := none, raised := some .alreadyPending, freedHeapRet := false }
  else
    match o.errorMsg with
    | some msg =>
        { output := none, raised := some (.overflowError msg),
          freedHeapRet := o.ret.isHeap }
    | none =>
        { output := some o.ret.text, raised := none,
          freedHeapRet := o.ret.isHeap }

/-- Top-level-call failure, as the claims use the word: either channel
reports an error after `JSON_EncodeObject`. -/
def encodeFailed (o : EncodeOutcome) : Prop :=
  o.pyErr = true ∨ o.errorMsg ≠ none

/-- State of the `default_handler` argument at the language boundary. -/
inductive DefHandlerArg where
  | absent
  | pyNone
  | callable
  | notCallable
deriving DecidableEq, Repr

/-- Arguments of the top-level call after `PyArg_ParseTupleAndKeywords`
(lines 2111-2116). `doublePrecision` is the parsed C `int` (default 10,
line 2061). -/
structure CallArgs where
  ensureAscii : Option Bool
  doublePrecision : Int
  encodeHTMLChars : Option Bool
  orient : Option String
  dateUnit : Option String
  isoDates : Option Bool
  defaultHandler : DefHandlerArg
deriving DecidableEq, Repr

/-- Encoder configuration produced by option parsing; the writer fields
`forceASCII`, `encodeHTMLChars`, `doublePrecision` plus the pandas
fields of `PyEncState`, and the default handler flag. -/
structure EncoderCfg where
  forceASCII : Bool
  encodeHTMLChars : Bool
  doublePrecision : Int
  outputFormat : PandasFormat
  originalOutputFormat : PandasFormat
  datetimeUnit : NpyDateUnit
  datetimeIso : Bool
  hasDefaultHandler : Bool
deriving DecidableEq, Repr

/-- Embeds the orient recognition of lines 2135-2149: one of records,
index, split, values, columns; anything else is a ValueError; absence
keeps the COLUMNS default of line 2096. -/
def parseOrient (orient : Option String) : Except PyExc PandasFormat :=
  match orient with
  | none => .ok .COLUMNS
  | some s =>
      if s = "records" then .ok .RECORDS
      else if s = "index" then .ok .INDEX
      else if s = "split" then .ok .SPLIT
      else if s = "values" then .ok .VALUES
      else if s = "columns" then .ok .COLUMNS
      else .error (.valueError "Invalid value for option orient")

/-- Embeds the date_unit recognition of lines 2151-2166: one of s, ms,
us, ns; anything else is a ValueError; absence keeps the ms default. -/
def parseDateUnit (dateUnit : Option String) : Except PyExc NpyDateUnit :=
  match dateUnit with
  | none => .ok .fr_ms
  | some u =>
      if u = "s" then .ok .fr_s
      else if u = "ms" then .ok .fr_ms
      else if u = "us" then .ok .fr_us
      else if u = "ns" then .ok .fr_ns
      else .error (.valueError "Invalid value for option date_unit")

/-- Embeds the option-validation prefix of `objToJSON`
(lines 2118-2180), in source order: ensure_ascii, encode_html_chars,
the double_precision range test against `JSON_DOUBLE_MAX_DECIMALS`
(supplied as `maxDecimals`, a constant of the external writer header),
orient, date_unit, iso_dates, default_handler, and finally the
`originalOutputFormat` snapshot (line 2180). Defaults come from the
initialisation at lines 2061 and 2091-2097: COLUMNS orientation, ms
unit, epoch mode. Error messages elide the offending value that the
source splices in with `PyErr_Format`. -/
def objToJSON_parseOptions (maxDecimals : Int) (a : CallArgs) :
    Except PyExc EncoderCfg :=
  if a.doublePrecision > maxDecimals ∨ a.doublePrecision < 0 then
    .error (.valueError "Invalid value for option double_precision")
  else
    match parseOrient a.orient with
    | .error e => .error e
    | .ok fmt =>
      match parseDateUnit a.dateUnit with
      | .error e => .error e
      | .ok unit =>
        match a.defaultHandler with
        | .notCallable => .error (.typeError "Default handler is not callable")
        | dh =>
          .ok { forceASCII := (match a.ensureAscii with | some b => b | none => true),
                encodeHTMLChars := (match a.encodeHTMLChars with | some b => b | none => false),
                doublePrecision := a.doublePrecision,
                outputFormat := fmt, originalOutputFormat := fmt,
                datetimeUnit := unit,
                datetimeIso := (match a.isoDates with | some b => b | none => false),
                hasDefaultHandler := dh = .callable }

/-- Embeds the whole of `objToJSON` (lines 2050-2208): parse and
validate options, then run the writer (abstracted as `run`, since the
writer is external), then the tail. An option error returns before the
writer ever runs. -/
def objToJSON (maxDecimals : Int) (a : CallArgs)
    (run : EncoderCfg → EncodeOutcome) : TailResult :=
  match objToJSON_parseOptions maxDecimals a with
  | .error e => { output := none, raised := some e, freedHeapRet := false }
  | .ok cfg => objToJSON_tail (run cfg)

/-- Orient strings accepted at lines 2135-2149. -/
def validOrients : List String := ["records", "index", "split", "values", "columns"]

/-- Date-unit strings accepted at lines 2151-2166. -/
def validDateUnits : List String := ["s", "ms", "us", "ns"]

/-- Embeds `DataFrame_iterBegin` (lines 1144-1199), restricted to its
effect on the two orientation fields of the encoder: snapshot the
current orientation into `originalOutputFormat`, then force VALUES for
a SPLIT table and INDEX for a RECORDS table. The allocation of the
split key buffer and of the `items`/`iterrows` iterable is assumed to
succeed (their failure paths return without iterating). -/
def DataFrame_iterBegin (enc : PyEncState) : PyEncState :=
  let enc := { enc with originalOutputFormat := enc.outputFormat }
  if enc.outputFormat = .SPLIT then
    { enc with outputFormat := .VALUES }
  else if enc.outputFormat = .RECORDS then
    { enc with outputFormat := .INDEX }
  else
    enc

/-- Effect of `DataFrame_iterNext` (lines 1208-1264) on the encoder
orientation fields: none. The function only reads
`originalOutputFormat` to pick the split key or pull the next pair; it
writes only the type-context item slots and index. -/
def DataFrame_iterNext_enc (enc : PyEncState) : PyEncState := enc

/-- Embeds `DataFrame_iterEnd` (lines 1272-1283) on the orientation
fields: restore `outputFormat` from the snapshot. -/
def DataFrame_iterEnd (enc : PyEncState) : PyEncState :=
  { enc with outputFormat := enc.originalOutputFormat }

/-- Encoder state after `n` iteration steps of the table driver. -/
def DataFrame_iterSteps (n : Nat) (enc : PyEncState) : PyEncState :=
  match n with
  | 0 => enc
  | k+1 => DataFrame_iterSteps k (DataFrame_iterNext_enc enc)

/-- NUL terminator byte of C strings. -/
def nulChar : Char := '\x00'

/-- Embeds C `strlen`: the length of the prefix before the first NUL. -/
def cstrlen (l : List Char) : Nat :=
  (l.takeWhile (fun ch => ch ≠ nulChar)).length

/-- Embeds the per-label packaging of `NpyArr_encodeLabels`
(lines 1485-1503). `cLabel` is the byte sequence the recursive
`JSON_EncodeObject` call produced for one label (without its NUL
terminator). `need_quotes` tests only whether the first byte is a
double quote; if quotes are needed the bytes are wrapped in quotes,
then a colon and a NUL terminator are appended. -/
def wrapLabel (cLabel : List Char) : List Char :=
  if cLabel.head? = some '"' then
    cLabel ++ [':', nulChar]
  else
    '"' :: cLabel ++ ['"', ':', nulChar]

/-- Embeds `NpyArr_encodeLabels` (lines 1413-1513). The label array is
a list of abstract label items walked in stride order; `encodeItem` is
the recursive encode of one item (covering both the numeric staging
path and the generic path, which differ only in how the item reaches
the encoder); `num` is the expected label count taken from the data
shape. The source first rejects a label array shorter than `num`
(lines 1430-1436), then packages the first `num` encoded labels.
Allocation failures and per-item encode failures of the external
writer are outside the model. -/
def NpyArr_encodeLabels (encodeItem : α → List Char) (labels : List α)
    (num : Nat) : Except String (List (List Char)) :=
  if labels.length < num then
    .error "Label array sizes do not match corresponding data shape"
  else
    .ok (((labels.take num).map (fun it => wrapLabel (encodeItem it))))

/-- Embeds the label trim of `DataFrame_iterGetName` in INDEX/COLUMNS
orientation (lines 1308-1323): with `len = strlen(cStr)`, the pointer
is advanced past the first byte and the byte at offset `len - 3` of the
advanced string is overwritten with NUL, leaving the bytes at offsets
1 through `len - 3` of the original slice. -/
def DataFrame_trimLabel (cStr : List Char) : List Char :=
  (cStr.drop 1).take (cstrlen cStr - 3)

/-- Inner bytes of an encoded label: for an already-quoted encoding the
bytes between the surrounding quotes, otherwise the encoding itself. -/
def labelInnerBytes (cLabel : List Char) : List Char :=
  if cLabel.head? = some '"' then (cLabel.drop 1).dropLast else cLabel

/-- One attribute as the Dir driver sees it: its name bytes, whether
`PyObject_GetAttr` succeeds for it, and whether the fetched value is
callable. -/
structure DirAttr where
  name : List Char
  fetchOk : Bool
  callable : Bool
deriving DecidableEq, Repr

/-- Embeds the scan loop of `Dir_iterNext` (lines 917-950) over the
suffix of the attribute list starting at the current index: a name
whose first byte is an underscore is skipped; a failing attribute fetch
raises, the error is cleared with `PyErr_Clear` (line 930), and the
scan continues; a callable value is skipped; otherwise the position and
the attribute are returned. -/
def Dir_scan (rest : List DirAttr) (i : Nat) : Option (Nat × DirAttr) :=
  match rest with
  | [] => none
  | a :: tl =>
      if a.name.head? = some '_' then Dir_scan tl (i + 1)
      else if a.fetchOk = false then Dir_scan tl (i + 1)
      else if a.callable then Dir_scan tl (i + 1)
      else some (i, a)

/-- Per-context state of the Dir driver: the scan index and the pending
Python-error flag observed by `PyErr_Occurred`. -/
structure DirState where
  index : Nat
  pendingErr : Bool
deriving DecidableEq, Repr

/-- Result of one `Dir_iterNext` call: the updated state, whether an
item was produced (the C return value), and the produced attribute. -/
structure DirNextResult where
  state : DirState
  hasItem : Bool
  item : Option DirAttr
deriving DecidableEq, Repr

/-- Embeds `Dir_iterNext` (lines 895-964): an already-pending error
returns 0 immediately (line 903); otherwise the scan loop runs from the
current index; on success the index advances past the found position by
two (the source increments it both inside the loop body, line 945, and
after the loop, line 960); on exhaustion the index is set to the list
size. In every path the function itself leaves no pending error: the
only error it can encounter, a failed attribute fetch, is cleared
inside the loop. -/
def Dir_iterNext (attrList : List DirAttr) (st : DirState) : DirNextResult :=
  if st.pendingErr then
    { state := st, hasItem := false, item := none }
  else
    match Dir_scan (attrList.drop st.index) st.index with
    | none =>
        { state := { index := attrList.length, pendingErr := false },
          hasItem := false, item := none }
    | some (j, a) =>
        { state := { index := j + 2, pendingErr := false },
          hasItem := true, item := some a }

/-- Pointwise update of an index vector modelled as a total function,
matching a C write `index[i] = v` into the fixed-size
`npy_intp index[NPY_MAXDIMS]` array. -/
def updIdx (f : Nat → Nat) (i v : Nat) : Nat → Nat :=
  fun j => if j = i then v else f j

/-- Embeds `NpyArrContext` (lines 64-79). `dims` and `strides` are the
shape and stride vectors of the wrapped array (`PyArray_DIM`,
`PyArray_STRIDE`); `dataptr` is the offset of the current data pointer
from the array base; `ndim` is `PyArray_NDIM(obj) - 1` as stored by the
source; `transpose` replaces the `inc` field (`inc = -1` when true,
`+1` when false); `index` is the per-axis counter array. -/
structure NpyCtx where
  dims : List Nat
  strides : List Int
  dataptr : Int
  curdim : Nat
  stridedim : Nat
  transpose : Bool
  dim : Nat
  stride : Int
  ndim : Nat
  index : Nat → Nat

/-- Axis reached by `stridedim += inc` (descent direction). -/
def NpyCtx.nextAxis (c : NpyCtx) : Nat :=
  if c.transpose then c.stridedim - 1 else c.stridedim + 1

/-- Axis reached by `stridedim -= inc` (pop direction). -/
def NpyCtx.prevAxis (c : NpyCtx) : Nat :=
  if c.transpose then c.stridedim + 1 else c.stridedim - 1

/-- Embeds `NpyArr_iterBegin` (lines 621-664): start at axis 0, or at
the last axis when the type context carries the transpose flag, with
the data pointer at the array base and the counter of the start axis
cleared. The `index` entries of the other axes are whatever the
uninitialised C array holds, passed in as `index0`. -/
def NpyArr_iterBegin (dims : List Nat) (strides : List Int)
    (transpose : Bool) (index0 : Nat → Nat) : NpyCtx :=
  let nd := dims.length - 1
  let s0 := if transpose then nd else 0
  { dims := dims, strides := strides, dataptr := 0, curdim := 0,
    stridedim := s0, transpose := transpose,
    dim := dims.getD s0 0, stride := strides.getD s0 0,
    ndim := nd, index := updIdx index0 s0 0 }

/-- Embeds `NpyArr_iterNextItem` (lines 692-723) on an error-free
traversal: when the counter of the stride axis reached the axis size
the call returns 0 (`none`); otherwise one leaf element is emitted
(datetime staging and `getitem` materialisation advance the state
identically), the data pointer advances by the stride and the counter
increments. -/
def NpyArr_leafStep (c : NpyCtx) : NpyCtx :=
  { c with
    dataptr := c.dataptr + c.stride
    index := updIdx c.index c.stridedim (c.index c.stridedim + 1) }

def NpyArr_iterNextItem (c : NpyCtx) : Option NpyCtx :=
  if c.dim ≤ c.index c.stridedim then none
  else some (NpyArr_leafStep c)

/-- Result of `NpyArr_iterNext` (lines 725-754): either the context
switched its `iterNext` pointer to the leaf phase and immediately ran
`NpyArr_iterNextItem` (lines 734-740), or it descended one dimension
(lines 742-753) handing the strider to the child through the
passthrough slot. -/
inductive NpyNextRes where
  | switched (r : Option NpyCtx)
  | descended (c : NpyCtx)

/-- Embeds `NpyArr_iterNext` (lines 725-754) on an error-free
traversal. At the innermost dimension, or when the current axis is
exhausted, the context switches to the leaf phase and calls
`NpyArr_iterNextItem`. Otherwise the counter of the current axis
increments, the walk descends (`curdim += 1`, `stridedim += inc`), the
new axis size and stride are loaded and its counter cleared. -/
def NpyArr_descendStep (c : NpyCtx) : NpyCtx :=
  let i1 := updIdx c.index c.stridedim (c.index c.stridedim + 1)
  let s1 := c.nextAxis
  { c with
    curdim := c.curdim + 1
    stridedim := s1
    dim := c.dims.getD s1 0
    stride := c.strides.getD s1 0
    index := updIdx i1 s1 0 }

def NpyArr_iterNext (c : NpyCtx) : NpyNextRes :=
  if c.ndim ≤ c.curdim ∨ c.dim ≤ c.index c.stridedim then
    .switched (NpyArr_iterNextItem c)
  else .descended (NpyArr_descendStep c)

/-- Embeds `NpyArrPassThru_iterEnd` (lines 678-690): pop one dimension.
The data pointer is rewound by `stride * index[stridedim]`, the stride
axis steps back (`stridedim -= inc`), the outer axis size and stride
are reloaded, and the data pointer advances by the reloaded stride
(moving the outer index one step). -/
def NpyArrPassThru_iterEnd (c : NpyCtx) : NpyCtx :=
  let rewound := c.dataptr - c.stride * (c.index c.stridedim : Int)
  let s1 := c.prevAxis
  let newStride := c.strides.getD s1 0
  { c with curdim := c.curdim - 1,
           dataptr := rewound + newStride,
           stridedim := s1,
           dim := c.dims.getD s1 0,
           stride := newStride }

/-- Leaf-phase loop of the writer at one nesting level: once a context
switched to `NpyArr_iterNextItem`, the writer keeps calling it until it
returns 0. Fuel-indexed so that the model stays a structural
recursion; `none` means the fuel bound was too small. Returns the
final context and the number of leaves emitted. -/
def NpyArr_itemLoop : Nat → NpyCtx → Option (NpyCtx × Nat)
  | 0, _ => none
  | fuel + 1, c =>
      match NpyArr_iterNextItem c with
      | none => some (c, 0)
      | some c1 =>
          match NpyArr_itemLoop fuel c1 with
          | none => none
          | some (c2, n) => some (c2, n + 1)

/-- One nesting level of the writer driving the strider: call
`NpyArr_iterNext` until it returns 0; a descent recursively runs the
child level (whose begin, `NpyArrPassThru_iterBegin`, is a no-op) and
then the child's `NpyArrPassThru_iterEnd`; a phase switch finishes the
level through the leaf loop. Fuel-indexed structural recursion;
`none` means the fuel bound was too small. -/
def NpyArr_runLevel : Nat → NpyCtx → Option (NpyCtx × Nat)
  | 0, _ => none
  | fuel + 1, c =>
      match NpyArr_iterNext c with
      | .switched none => some (c, 0)
      | .switched (some c1) =>
          match NpyArr_itemLoop fuel c1 with
          | none => none
          | some (c2, n) => some (c2, n + 1)
      | .descended c1 =>
          match NpyArr_runLevel fuel c1 with
          | none => none
          | some (c2, n) =>
              match NpyArr_runLevel fuel (NpyArrPassThru_iterEnd c2) with
              | none => none
              | some (c4, m) => some (c4, n + m)

/-- Fuel amount sufficient for one level with `n` loop iterations left
and `r` dimensions below, when every axis size is at most `M`. -/
def needFuel (M : Nat) : Nat → Nat → Nat
  | 0, n => n + 1
  | r + 1, n => n * (needFuel M r M + 1) + 1

/-- Largest axis size of a shape. -/
def maxDim (dims : List Nat) : Nat := dims.foldr max 0

/-- Complete traversal of a numeric array by the strider, as the writer
drives it: begin, the root level loop, and the root
`NpyArr_iterEnd` (which only frees). Returns the number of leaf
scalars emitted, or `none` if the (sufficiently generous) fuel bound
were ever to run out. -/
def NpyArr_leafCount (dims : List Nat) (strides : List Int)
    (transpose : Bool) (index0 : Nat → Nat) : Option Nat :=
  let c := NpyArr_iterBegin dims strides transpose index0
  match NpyArr_runLevel (needFuel (maxDim dims) c.ndim (maxDim dims)) c with
  | none => none
  | some (_, n) => some n

/-- Number of dimensions still below the current stride axis, the
induction handle of the level lemmas: with the normal walk the stride
axis at depth `r`-below is `ndim - r`, with the transposed walk it is
`r` itself. -/
def axisOf (transpose : Bool) (nd r : Nat) : Nat :=
  if transpose then r else nd - r

/-- Product of the axis sizes strictly below level `r` in descent
order. -/
def prodBelow (transpose : Bool) (dims : List Nat) (nd : Nat) : Nat → Nat
  | 0 => 1
  | r + 1 => dims.getD (axisOf transpose nd r) 0 * prodBelow transpose dims nd r

/-- Consistency of a context with being the strider of `dims`/`strides`
at a level with `r` dimensions below: the geometry fields are the ones
`NpyArr_iterBegin` and the descent/pop steps maintain. -/
def GoodCtx (dims : List Nat) (strides : List Int) (tp : Bool) (r : Nat)
    (c : NpyCtx) : Prop :=
  c.dims = dims ∧ c.strides = strides ∧ c.transpose = tp ∧
  c.ndim = dims.length - 1 ∧ 1 ≤ dims.length ∧ r ≤ c.ndim ∧
  c.curdim = c.ndim - r ∧ c.stridedim = axisOf tp c.ndim r ∧
  c.dim = dims.getD c.stridedim 0 ∧ c.stride = strides.getD c.stridedim 0

/-- States of one strider that the writer can observe between callback
invocations: the state right after `NpyArr_iterBegin`, and the images
of observable states under a successful leaf-phase call, a descent, or
a dimension pop (which the writer only invokes on descended levels,
hence the `1 ≤ curdim` guard). -/
inductive NpyReach (dims : List Nat) (strides : List Int) (tp : Bool)
    (index0 : Nat → Nat) : NpyCtx → Prop where
  | begin : NpyReach dims strides tp index0 (NpyArr_iterBegin dims strides tp index0)
  | leaf {c c1 : NpyCtx} : NpyReach dims strides tp index0 c →
      NpyArr_iterNextItem c = some c1 → NpyReach dims strides tp index0 c1
  | descend {c c1 : NpyCtx} : NpyReach dims strides tp index0 c →
      NpyArr_iterNext c = .descended c1 → NpyReach dims strides tp index0 c1
  | pop {c : NpyCtx} : NpyReach dims strides tp index0 c → 1 ≤ c.curdim →
      NpyReach dims strides tp index0 (NpyArrPassThru_iterEnd c)

/-- Axes the walk has descended through to reach the current stride
axis (in this embedding the base pointer is offset 0): the axes before
`stridedim` in descent order. -/
def enclosingAxes (c : NpyCtx) : List Nat :=
  if c.transpose then List.range' (c.stridedim + 1) (c.ndim - c.stridedim)
  else List.range c.stridedim

/-- Offset contribution of the axes descended through, with the
off-by-one the eager counter increments of the source introduce: an
enclosing axis whose counter reads `i` is positioned at `i - 1`. -/
def enclosedSum (c : NpyCtx) : Int :=
  ((enclosingAxes c).map
    (fun j => c.strides.getD j 0 * ((c.index j : Int) - 1))).sum

/-- Amended data-pointer invariant actually maintained by the strider:
current axis at its counter value, enclosing axes at counter minus
one. -/
def ptrInv (c : NpyCtx) : Prop :=
  c.dataptr = c.stride * (c.index c.stridedim : Int) + enclosedSum c

/-- Data-pointer equation exactly as the specification states it: base
plus the sum over all axes of stride times counter. -/
def specPtrEq (c : NpyCtx) : Prop :=
  c.dataptr =
    ((List.range (c.ndim + 1)).map
      (fun j => c.strides.getD j 0 * (c.index j : Int))).sum

/-- Structural well-formedness carried through the traversal for the
pointer invariant: geometry of the current axis, counter bounds of the
current axis and of every enclosing axis. -/
def NpyWF (dims : List Nat) (strides : List Int) (tp : Bool)
    (c : NpyCtx) : Prop :=
  c.dims = dims ∧ c.strides = strides ∧ c.transpose = tp ∧
  c.ndim = dims.length - 1 ∧ 1 ≤ dims.length ∧ c.curdim ≤ c.ndim ∧
  (c.stridedim = if tp then c.ndim - c.curdim else c.curdim) ∧
  c.dim = dims.getD c.stridedim 0 ∧ c.stride = strides.getD c.stridedim 0 ∧
  c.index c.stridedim ≤ c.dim ∧
  (∀ j ∈ enclosingAxes c, 1 ≤ c.index j ∧ c.index j ≤ dims.getD j 0)

/-- Outcome state exhibiting a failed call whose grown buffer is not
freed: a Python exception is pending (for example an iterable that
raised mid-iteration), the writer error slot is empty, and the writer
had grown its buffer beyond the inline scratch. -/
def failedHeapOutcome : EncodeOutcome :=
  { ret := .heap "[1,2", pyErr := true, errorMsg := none }

/-- Strider freshly begun on a 2 x 3 array with element strides 3 and 1
(the uninitialised index entries taken as 0). -/
def strider2x3 : NpyCtx := NpyArr_iterBegin [2, 3] [3, 1] false (fun _ => 0)

/-- State of the 2 x 3 strider after its first descent-phase next
call. -/
def strider2x3a : NpyCtx :=
  match NpyArr_iterNext strider2x3 with
  | .descended c => c
  | .switched _ => strider2x3

end PandasUjson

namespace PandasUjson

/-- CLAIM C1. The spec asserts that every not-a-time value encodes as
JSON null under both date modes and every date unit. The first three
conjuncts confirm this for a NaT element of a datetime/timedelta array
(`NpyTypeToJSONType`, lines 573-576), a NaT datetime scalar
(lines 1636-1639), and a NaT numpy datetime scalar (lines 1657-1663).
The last conjunct evaluates the code at the failing input: a NaT
duration (nanosecond payload equal to the `get_nat` sentinel) under
date unit `s` is rescaled BEFORE the sentinel test (lines 1679-1704)
and therefore encodes as the integer -9223372036 instead of null. -/
theorem nat_sentinel_null_except_delta_unit_bug :
    (∀ iso : Bool, NpyTypeToJSONType (.dtElem get_nat) iso = tagOnly .JT_NULL) ∧
    (∀ enc : PyEncState, Object_beginTypeContext enc (.pydatetime true) = tagOnly .JT_NULL) ∧
    (∀ enc : PyEncState, Object_beginTypeContext enc (.npDatetimeScalar get_nat) = tagOnly .JT_NULL) ∧
    Object_beginTypeContext
      { datetimeIso := false, datetimeUnit := .fr_s,
        outputFormat := .COLUMNS, originalOutputFormat := .COLUMNS }
      (.pydelta get_nat)
      = { type := .JT_LONG, longValue := -9223372036 } := by
  refine ⟨fun iso => ?_, fun enc => rfl, fun enc => ?_, ?_⟩
  · simp [NpyTypeToJSONType, get_nat, tagOnly]
  · simp [Object_beginTypeContext, get_nat, tagOnly]
  · simp [Object_beginTypeContext, deltaRescale, get_nat]
    decide

/-- CLAIM C2 (counterexample). A failed top-level call with a pending
Python exception and a heap-grown writer buffer returns an error and no
text, but does not free the grown buffer: the free at lines 2192-2194
sits only in the `errorMsg` branch, which the `PyErr_Occurred` early
return at lines 2185-2188 bypasses. -/
theorem failed_call_leaves_heap_buffer_unfreed :
    encodeFailed failedHeapOutcome ∧
    (objToJSON_tail failedHeapOutcome).output = none ∧
    failedHeapOutcome.ret.isHeap = true ∧
    (objToJSON_tail failedHeapOutcome).freedHeapRet = false := by
  refine ⟨Or.inl rfl, rfl, rfl, rfl⟩

/-- CLAIM C2 (amended). Any failed top-level call returns an error and
produces no output text; the buffer grown beyond the inline scratch is
freed when the failure is reported through the writer error slot with
no pending Python exception, while a pending Python exception makes the
call return without the free. -/
theorem failed_call_no_partial_output (o : EncodeOutcome)
    (h : encodeFailed o) :
    (objToJSON_tail o).output = none ∧
    (objToJSON_tail o).raised ≠ none ∧
    (o.pyErr = false → o.ret.isHeap = true →
      (objToJSON_tail o).freedHeapRet = true) := by
  unfold objToJSON_tail
  by_cases hp : o.pyErr = true
  · simp [hp]
  · rcases h with h | h
    · exact absurd h hp
    · cases hm : o.errorMsg with
      | none => exact absurd hm h
      | some m => simp [hp, hm]

/-- Witness for the amended C2 theorem at a concrete failed outcome. -/
theorem failed_call_no_partial_output_witness :
    encodeFailed { ret := .heap "[1", pyErr := false, errorMsg := some "Could not reserve memory block" } ∧
    ((objToJSON_tail { ret := .heap "[1", pyErr := false, errorMsg := some "Could not reserve memory block" }).output = none ∧
     (objToJSON_tail { ret := .heap "[1", pyErr := false, errorMsg := some "Could not reserve memory block" }).raised ≠ none ∧
     (false = false → (RetBuf.heap "[1").isHeap = true →
       (objToJSON_tail { ret := .heap "[1", pyErr := false, errorMsg := some "Could not reserve memory block" }).freedHeapRet = true)) :=
  ⟨Or.inr (by decide),
   failed_call_no_partial_output
     { ret := .heap "[1", pyErr := false, errorMsg := some "Could not reserve memory block" }
     (Or.inr (by decide))⟩

/-- CLAIM C9. Whenever the call fails through the writer error slot
with no Python exception pending, the raised error is of the overflow
class whatever the failure category was: lines 2190-2198 format the
slot text into `PyExc_OverflowError` unconditionally. -/
theorem errorMsg_raises_overflow_class (o : EncodeOutcome) (msg : String)
    (hp : o.pyErr = false) (hm : o.errorMsg = some msg) :
    (objToJSON_tail o).raised = some (.overflowError msg) := by
  unfold objToJSON_tail
  simp [hp, hm]

/-- Witness for C9 at a concrete shape-error outcome. -/
theorem errorMsg_raises_overflow_class_witness :
    ({ ret := .scratch "", pyErr := false, errorMsg := some "Label array sizes do not match corresponding data shape" } : EncodeOutcome).pyErr = false ∧
    ({ ret := .scratch "", pyErr := false, errorMsg := some "Label array sizes do not match corresponding data shape" } : EncodeOutcome).errorMsg = some "Label array sizes do not match corresponding data shape" ∧
    (objToJSON_tail { ret := .scratch "", pyErr := false, errorMsg := some "Label array sizes do not match corresponding data shape" }).raised
      = some (.overflowError "Label array sizes do not match corresponding data shape") :=
  ⟨rfl, rfl,
   errorMsg_raises_overflow_class
     { ret := .scratch "", pyErr := false, errorMsg := some "Label array sizes do not match corresponding data shape" }
     "Label array sizes do not match corresponding data shape" rfl rfl⟩

/-- Iteration steps of the table driver leave the encoder state
unchanged; only the snapshot/restore pair touches it. -/
theorem DataFrame_iterSteps_id (n : Nat) (enc : PyEncState) :
    DataFrame_iterSteps n enc = enc := by
  induction n with
  | zero => rfl
  | succ k ih => exact ih

/-- CLAIM C3. The table driver snapshots the orientation at begin
(line 1147); after any number of iteration steps followed by iterator
end the orientation equals the snapshot again (line 1281); during the
iteration the orientation is VALUES when the snapshot is SPLIT
(line 1158) and INDEX when the snapshot is RECORDS (lines 1191-1193). -/
theorem dataframe_orientation_snapshot_restore (enc : PyEncState) (n : Nat) :
    (DataFrame_iterBegin enc).originalOutputFormat = enc.outputFormat ∧
    (DataFrame_iterEnd (DataFrame_iterSteps n (DataFrame_iterBegin enc))).outputFormat
      = enc.outputFormat ∧
    (enc.outputFormat = .SPLIT →
      (DataFrame_iterBegin enc).outputFormat = .VALUES) ∧
    (enc.outputFormat = .RECORDS →
      (DataFrame_iterBegin enc).outputFormat = .INDEX) := by
  rw [DataFrame_iterSteps_id]
  unfold DataFrame_iterBegin DataFrame_iterEnd
  cases h : enc.outputFormat <;> simp [h]

/-- Witness for C3 at a SPLIT table over two iteration steps. -/
theorem dataframe_orientation_snapshot_restore_witness :
    (DataFrame_iterBegin
      { datetimeIso := false, datetimeUnit := .fr_ms,
        outputFormat := .SPLIT, originalOutputFormat := .COLUMNS }).originalOutputFormat = .SPLIT ∧
    (DataFrame_iterEnd (DataFrame_iterSteps 2 (DataFrame_iterBegin
      { datetimeIso := false, datetimeUnit := .fr_ms,
        outputFormat := .SPLIT, originalOutputFormat := .COLUMNS }))).outputFormat = .SPLIT ∧
    (DataFrame_iterBegin
      { datetimeIso := false, datetimeUnit := .fr_ms,
        outputFormat := .SPLIT, originalOutputFormat := .COLUMNS }).outputFormat = .VALUES := by
  have h := dataframe_orientation_snapshot_restore
    { datetimeIso := false, datetimeUnit := .fr_ms,
      outputFormat := .SPLIT, originalOutputFormat := .COLUMNS } 2
  exact ⟨h.1, h.2.1, h.2.2.1 rfl⟩

/-- CLAIM C6 (counterexample). A label array longer than the expected
label count does not fail: with two labels and an expected count of
one, the label count is less than the label array length yet the
pre-encoder succeeds, refuting the claimed failure condition (the
source tests `PyArray_SIZE(labels) < num`, the opposite direction,
lines 1430-1436). -/
theorem encodeLabels_long_array_succeeds :
    (1 : Nat) < ([['a'], ['b']] : List (List Char)).length ∧
    NpyArr_encodeLabels (fun l => l) [['a'], ['b']] 1
      ≠ .error "Label array sizes do not match corresponding data shape" := by
  refine ⟨by decide, fun h => ?_⟩
  simp [NpyArr_encodeLabels] at h

/-- CLAIM C6 (amended). The label pre-encoder fails with the message
exactly when the label array length is less than the expected label
count; when it does not fail it returns one encoded byte slice per
expected label (lines 1430-1436 and 1438-1512). -/
theorem encodeLabels_shape_error {α : Type} (encodeItem : α → List Char)
    (labels : List α) (num : Nat) :
    (NpyArr_encodeLabels encodeItem labels num
        = .error "Label array sizes do not match corresponding data shape"
      ↔ labels.length < num) ∧
    (∀ out, NpyArr_encodeLabels encodeItem labels num = .ok out →
      out.length = num) := by
  unfold NpyArr_encodeLabels
  by_cases h : labels.length < num
  · simp [h]
  · simp only [if_neg h]
    refine ⟨by simp [h], fun out hout => ?_⟩
    have : ((labels.take num).map (fun it => wrapLabel (encodeItem it))) = out := by
      simpa using hout
    rw [← this, List.length_map, List.length_take]
    omega

/-- Witness for the amended C6 theorem on a one-label array. -/
theorem encodeLabels_shape_error_witness :
    NpyArr_encodeLabels (fun l => l) [['a']] 1 = .ok [['"', 'a', '"', ':', nulChar]] ∧
    ([['"', 'a', '"', ':', nulChar]] : List (List Char)).length = 1 :=
  ⟨rfl,
   (encodeLabels_shape_error (fun l => l) [['a']] 1).2
     [['"', 'a', '"', ':', nulChar]] rfl⟩

/-- Embeds the C-string step over a non-NUL byte. -/
theorem cstrlen_cons_ne (a : Char) (l : List Char) (ha : a ≠ nulChar) :
    cstrlen (a :: l) = cstrlen l + 1 := by
  simp [cstrlen, List.takeWhile_cons, ha]

/-- Embeds the C-string length of a NUL-free run followed by a NUL. -/
theorem cstrlen_append (l m : List Char) (h : nulChar ∉ l) :
    cstrlen (l ++ nulChar :: m) = l.length := by
  induction l with
  | nil => simp [cstrlen, List.takeWhile_cons]
  | cons a tl ih =>
      have ha : a ≠ nulChar := fun hh => h (hh ▸ List.mem_cons_self a tl)
      have htl : nulChar ∉ tl := fun hm => h (List.mem_cons_of_mem _ hm)
      rw [List.cons_append, cstrlen_cons_ne a _ ha, ih htl, List.length_cons]

/-- CLAIM C8. Every byte slice the label pre-encoder produces begins
with a double quote and ends with quote, colon, NUL, whether or not the
encoded label already carried surrounding quotes (lines 1485-1503), so
the table-driver trim of the first byte and the last two text bytes
(lines 1317-1321) recovers exactly the inner bytes of the label. The
hypotheses state that the recursive encode output is NUL-free and that
an output starting with a quote is a complete quoted string. -/
theorem wrapLabel_layout_and_trim (e : List Char) (hnul : nulChar ∉ e)
    (hq : e.head? = some '"' → ∃ mid, e = '"' :: mid ++ ['"']) :
    (wrapLabel e).head? = some '"' ∧
    (wrapLabel e).drop ((wrapLabel e).length - 3) = ['"', ':', nulChar] ∧
    DataFrame_trimLabel (wrapLabel e) = labelInnerBytes e := by
  by_cases hh : e.head? = some '"'
  · obtain ⟨mid, rfl⟩ := hq hh
    have hmid : nulChar ∉ mid := by
      intro hm
      exact hnul (List.mem_cons_of_mem _ (List.mem_append_left _ hm))
    have hw : wrapLabel ('"' :: mid ++ ['"'])
        = ('"' :: mid ++ ['"', ':']) ++ [nulChar] := by
      simp [wrapLabel]
    have hlen : cstrlen (('"' :: mid ++ ['"', ':']) ++ [nulChar])
        = mid.length + 3 := by
      rw [show ([nulChar] : List Char) = nulChar :: [] from rfl]
      rw [cstrlen_append]
      · simp
      · intro hm
        rcases List.mem_cons.mp hm with h1 | h1
        · exact absurd h1.symm (by decide)
        · rcases List.mem_append.mp h1 with h2 | h2
          · exact hmid h2
          · rcases List.mem_cons.mp h2 with h3 | h3
            · exact absurd h3.symm (by decide)
            · rcases List.mem_cons.mp h3 with h4 | h4
              · exact absurd h4.symm (by decide)
              · cases h4
    refine ⟨by rw [hw]; rfl, ?_, ?_⟩
    · rw [hw]
      have hl : (('"' :: mid ++ ['"', ':']) ++ [nulChar]).length = mid.length + 4 := by
        simp
      rw [hl]
      have h43 : mid.length + 4 - 3 = mid.length + 1 := by omega
      rw [h43]
      have hsplit : ('"' :: mid ++ ['"', ':']) ++ [nulChar]
          = ('"' :: mid) ++ ['"', ':', nulChar] := by simp
      rw [hsplit]
      have hlc : ('"' :: mid).length = mid.length + 1 := by simp
      rw [← hlc, List.drop_left]
    · unfold DataFrame_trimLabel labelInnerBytes
      rw [hw, hlen]
      have h33 : mid.length + 3 - 3 = mid.length := by omega
      rw [h33]
      have hdrop : ((('"' :: mid ++ ['"', ':']) ++ [nulChar]).drop 1)
          = mid ++ ['"', ':', nulChar] := by simp
      rw [hdrop]
      rw [if_pos hh]
      have hd1 : ('"' :: mid ++ ['"']).drop 1 = mid ++ ['"'] := by simp
      rw [hd1, List.take_left, List.dropLast_concat]
  · have hw : wrapLabel e = ('"' :: e ++ ['"', ':']) ++ [nulChar] := by
      simp [wrapLabel, hh]
    have hlen : cstrlen (('"' :: e ++ ['"', ':']) ++ [nulChar])
        = e.length + 3 := by
      rw [show ([nulChar] : List Char) = nulChar :: [] from rfl]
      rw [cstrlen_append]
      · simp
      · intro hm
        rcases List.mem_cons.mp hm with h1 | h1
        · exact absurd h1.symm (by decide)
        · rcases List.mem_append.mp h1 with h2 | h2
          · exact hnul h2
          · rcases List.mem_cons.mp h2 with h3 | h3
            · exact absurd h3.symm (by decide)
            · rcases List.mem_cons.mp h3 with h4 | h4
              · exact absurd h4.symm (by decide)
              · cases h4
    refine ⟨by rw [hw]; rfl, ?_, ?_⟩
    · rw [hw]
      have hl : (('"' :: e ++ ['"', ':']) ++ [nulChar]).length = e.length + 4 := by
        simp
      rw [hl]
      have h43 : e.length + 4 - 3 = e.length + 1 := by omega
      rw [h43]
      have hsplit : ('"' :: e ++ ['"', ':']) ++ [nulChar]
          = ('"' :: e) ++ ['"', ':', nulChar] := by simp
      rw [hsplit]
      have hlc : ('"' :: e).length = e.length + 1 := by simp
      rw [← hlc, List.drop_left]
    · unfold DataFrame_trimLabel labelInnerBytes
      rw [hw, hlen]
      have h33 : e.length + 3 - 3 = e.length := by omega
      rw [h33]
      have hdrop : ((('"' :: e ++ ['"', ':']) ++ [nulChar]).drop 1)
          = e ++ ['"', ':', nulChar] := by simp
      rw [hdrop, if_neg hh, List.take_left]

/-- Witness for C8 on an already-quoted encoded label. -/
theorem wrapLabel_layout_and_trim_witness :
    (nulChar ∉ (['"', 'x', '"'] : List Char)) ∧
    ((wrapLabel ['"', 'x', '"']).head? = some '"' ∧
     (wrapLabel ['"', 'x', '"']).drop ((wrapLabel ['"', 'x', '"']).length - 3)
       = ['"', ':', nulChar] ∧
     DataFrame_trimLabel (wrapLabel ['"', 'x', '"'])
       = labelInnerBytes ['"', 'x', '"']) :=
  ⟨by decide,
   wrapLabel_layout_and_trim ['"', 'x', '"'] (by decide)
     (fun _ => ⟨['x'], rfl⟩)⟩

/-- Attributes returned by the Dir scan always passed every filter; in
particular their fetch succeeded. -/
theorem Dir_scan_found_ok (rest : List DirAttr) :
    ∀ k j b, Dir_scan rest k = some (j, b) →
      b.fetchOk = true ∧ b.callable = false ∧ b.name.head? ≠ some '_' := by
  induction rest with
  | nil => intro k j b h; cases h
  | cons a tl ih =>
      intro k j b h
      unfold Dir_scan at h
      by_cases h1 : a.name.head? = some '_'
      · rw [if_pos h1] at h
        exact ih (k + 1) j b h
      · rw [if_neg h1] at h
        by_cases h2 : a.fetchOk = false
        · rw [if_pos h2] at h
          exact ih (k + 1) j b h
        · rw [if_neg h2] at h
          by_cases h3 : a.callable = true
          · rw [if_pos h3] at h
            exact ih (k + 1) j b h
          · rw [if_neg h3] at h
            injection h with h
            injection h with hj hb
            subst hb
            exact ⟨by simpa using h2, by simpa using h3, h1⟩

/-- CLAIM C10. The attribute-dir driver skips an attribute whose fetch
raises exactly like an underscore name or a callable: the error is
cleared (line 930) and the scan continues with the next name; a call
entered without a pending error always leaves without one, so an
attribute-access failure never aborts the encoding; and any attribute
the driver does yield was fetched successfully. -/
theorem dir_fetch_failure_skipped (a : DirAttr) (tl : List DirAttr) (i : Nat)
    (attrList : List DirAttr) (st : DirState)
    (hfail : a.fetchOk = false) (hpe : st.pendingErr = false) :
    Dir_scan (a :: tl) i = Dir_scan tl (i + 1) ∧
    (Dir_iterNext attrList st).state.pendingErr = false ∧
    (∀ rest k j b, Dir_scan rest k = some (j, b) → b.fetchOk = true) := by
  refine ⟨?_, ?_, fun rest k j b h => (Dir_scan_found_ok rest k j b h).1⟩
  · have hstep : Dir_scan (a :: tl) i
        = if a.name.head? = some '_' then Dir_scan tl (i + 1)
          else if a.fetchOk = false then Dir_scan tl (i + 1)
          else if a.callable = true then Dir_scan tl (i + 1)
          else some (i, a) := rfl
    rw [hstep]
    by_cases h1 : a.name.head? = some '_'
    · rw [if_pos h1]
    · rw [if_neg h1, if_pos hfail]
  · unfold Dir_iterNext
    rw [hpe]
    simp only [Bool.false_eq_true, if_false]
    cases Dir_scan (attrList.drop st.index) st.index with
    | none => rfl
    | some p => rfl

/-- Witness for C10 on a two-attribute object whose first attribute
fetch raises. -/
theorem dir_fetch_failure_skipped_witness :
    ({ name := ['b'], fetchOk := false, callable := false } : DirAttr).fetchOk = false ∧
    Dir_scan [{ name := ['b'], fetchOk := false, callable := false },
              { name := ['c'], fetchOk := true, callable := false }] 0
      = Dir_scan [{ name := ['c'], fetchOk := true, callable := false }] 1 ∧
    (Dir_iterNext [{ name := ['b'], fetchOk := false, callable := false },
                   { name := ['c'], fetchOk := true, callable := false }]
       { index := 0, pendingErr := false }).state.pendingErr = false := by
  have h := dir_fetch_failure_skipped
    { name := ['b'], fetchOk := false, callable := false }
    [{ name := ['c'], fetchOk := true, callable := false }] 0
    [{ name := ['b'], fetchOk := false, callable := false },
     { name := ['c'], fetchOk := true, callable := false }]
    { index := 0, pendingErr := false } rfl rfl
  exact ⟨rfl, h.1, h.2.1⟩

/-- Unrecognised orient strings make the orient parser fail. -/
theorem parseOrient_invalid (s : String) (hs : s ∉ validOrients) :
    parseOrient (some s) = .error (.valueError "Invalid value for option orient") := by
  simp only [validOrients, List.mem_cons, List.mem_singleton, not_or] at hs
  obtain ⟨h1, h2, h3, h4, h5⟩ := hs
  simp [parseOrient, h1, h2, h3, h4, h5]

/-- Unrecognised date_unit strings make the date-unit parser fail. -/
theorem parseDateUnit_invalid (u : String) (hu : u ∉ validDateUnits) :
    parseDateUnit (some u) = .error (.valueError "Invalid value for option date_unit") := by
  simp only [validDateUnits, List.mem_cons, List.mem_singleton, not_or] at hu
  obtain ⟨h1, h2, h3, h4⟩ := hu
  simp [parseDateUnit, h1, h2, h3, h4]

/-- Option-parse failures short-circuit the top-level call before the
writer runs: the result carries the parse error, no output, and is the
same for every writer behaviour. -/
theorem objToJSON_of_parse_error (maxDec : Int) (a : CallArgs) (e : PyExc)
    (run run2 : EncoderCfg → EncodeOutcome)
    (h : objToJSON_parseOptions maxDec a = .error e) :
    (objToJSON maxDec a run).output = none ∧
    (objToJSON maxDec a run).raised ≠ none ∧
    objToJSON maxDec a run = objToJSON maxDec a run2 := by
  unfold objToJSON
  rw [h]
  exact ⟨rfl, by simp, rfl⟩

/-- CLAIM C7. Option sets with an orient outside the recognised five,
or a date_unit outside the recognised four, or a double_precision
outside 0..max, are rejected with an error before any output is
produced (the result does not depend on the writer at all); when the
options parse, an absent orient defaults to COLUMNS and an absent
date_unit defaults to ms. -/
theorem invalid_options_reject_before_output (maxDec : Int) (a : CallArgs)
    (run run2 : EncoderCfg → EncodeOutcome) :
    (∀ s, a.orient = some s → s ∉ validOrients →
      (objToJSON maxDec a run).output = none ∧
      (objToJSON maxDec a run).raised ≠ none ∧
      objToJSON maxDec a run = objToJSON maxDec a run2) ∧
    (∀ u, a.dateUnit = some u → u ∉ validDateUnits →
      (objToJSON maxDec a run).output = none ∧
      (objToJSON maxDec a run).raised ≠ none ∧
      objToJSON maxDec a run = objToJSON maxDec a run2) ∧
    ((a.doublePrecision < 0 ∨ maxDec < a.doublePrecision) →
      (objToJSON maxDec a run).output = none ∧
      (objToJSON maxDec a run).raised ≠ none ∧
      objToJSON maxDec a run = objToJSON maxDec a run2) ∧
    (∀ cfg, objToJSON_parseOptions maxDec a = .ok cfg →
      (a.orient = none → cfg.outputFormat = .COLUMNS) ∧
      (a.dateUnit = none → cfg.datetimeUnit = .fr_ms)) := by
  refine ⟨?_, ?_, ?_, ?_⟩
  · intro s ho hs
    by_cases hp : a.doublePrecision > maxDec ∨ a.doublePrecision < 0
    · exact objToJSON_of_parse_error maxDec a
        (.valueError "Invalid value for option double_precision") run run2
        (by unfold objToJSON_parseOptions; rw [if_pos hp])
    · refine objToJSON_of_parse_error maxDec a
        (.valueError "Invalid value for option orient") run run2 ?_
      unfold objToJSON_parseOptions
      rw [if_neg hp, ho, parseOrient_invalid s hs]
  · intro u hu hus
    by_cases hp : a.doublePrecision > maxDec ∨ a.doublePrecision < 0
    · exact objToJSON_of_parse_error maxDec a
        (.valueError "Invalid value for option double_precision") run run2
        (by unfold objToJSON_parseOptions; rw [if_pos hp])
    · cases hf : parseOrient a.orient with
      | error e =>
          refine objToJSON_of_parse_error maxDec a e run run2 ?_
          unfold objToJSON_parseOptions
          rw [if_neg hp, hf]
      | ok fmt =>
          refine objToJSON_of_parse_error maxDec a
            (.valueError "Invalid value for option date_unit") run run2 ?_
          unfold objToJSON_parseOptions
          rw [if_neg hp, hf, hu, parseDateUnit_invalid u hus]
  · intro hp
    have hp2 : a.doublePrecision > maxDec ∨ a.doublePrecision < 0 := by
      rcases hp with h | h
      · exact Or.inr h
      · exact Or.inl h
    exact objToJSON_of_parse_error maxDec a
      (.valueError "Invalid value for option double_precision") run run2
      (by unfold objToJSON_parseOptions; rw [if_pos hp2])
  · intro cfg h
    unfold objToJSON_parseOptions at h
    by_cases hp : a.doublePrecision > maxDec ∨ a.doublePrecision < 0
    · rw [if_pos hp] at h
      cases h
    · rw [if_neg hp] at h
      cases hf : parseOrient a.orient with
      | error e => rw [hf] at h; cases h
      | ok fmt =>
          rw [hf] at h
          cases hdu : parseDateUnit a.dateUnit with
          | error e => rw [hdu] at h; cases h
          | ok unit =>
              rw [hdu] at h
              refine ⟨fun ho => ?_, fun hduu => ?_⟩
              · rw [ho] at hf
                have hfc : PandasFormat.COLUMNS = fmt := Except.ok.inj hf
                cases hdh : a.defaultHandler <;> rw [hdh] at h <;>
                  first
                    | exact Except.noConfusion h
                    | { have hcv := Except.ok.inj h
                        rw [← hcv, ← hfc] }
              · rw [hduu] at hdu
                have hdc : NpyDateUnit.fr_ms = unit := Except.ok.inj hdu
                cases hdh : a.defaultHandler <;> rw [hdh] at h <;>
                  first
                    | exact Except.noConfusion h
                    | { have hcv := Except.ok.inj h
                        rw [← hcv, ← hdc] }

/-- Witness for C7 at a rejected orient, a rejected date unit, a
rejected precision, and a defaulted option set. -/
theorem invalid_options_reject_before_output_witness :
    (({ ensureAscii := none, doublePrecision := 10, encodeHTMLChars := none,
        orient := some "rows", dateUnit := none, isoDates := none,
        defaultHandler := .absent } : CallArgs).orient = some "rows" ∧
      "rows" ∉ validOrients) ∧
    (objToJSON 15
      { ensureAscii := none, doublePrecision := 10, encodeHTMLChars := none,
        orient := some "rows", dateUnit := none, isoDates := none,
        defaultHandler := .absent }
      (fun _ => { ret := .scratch "x", pyErr := false, errorMsg := none })).output = none ∧
    (∀ cfg, objToJSON_parseOptions 15
        { ensureAscii := none, doublePrecision := 10, encodeHTMLChars := none,
          orient := none, dateUnit := none, isoDates := none,
          defaultHandler := .absent } = .ok cfg →
        cfg.outputFormat = .COLUMNS ∧ cfg.datetimeUnit = .fr_ms) := by
  refine ⟨⟨rfl, by decide⟩, ?_, ?_⟩
  · exact ((invalid_options_reject_before_output 15
      { ensureAscii := none, doublePrecision := 10, encodeHTMLChars := none,
        orient := some "rows", dateUnit := none, isoDates := none,
        defaultHandler := .absent }
      (fun _ => { ret := .scratch "x", pyErr := false, errorMsg := none })
      (fun _ => { ret := .scratch "x", pyErr := false, errorMsg := none })).1
      "rows" rfl (by decide)).1
  · intro cfg h
    have hd := ((invalid_options_reject_before_output 15
      { ensureAscii := none, doublePrecision := 10, encodeHTMLChars := none,
        orient := none, dateUnit := none, isoDates := none,
        defaultHandler := .absent }
      (fun _ => { ret := .scratch "x", pyErr := false, errorMsg := none })
      (fun _ => { ret := .scratch "x", pyErr := false, errorMsg := none })).2.2.2
      cfg h)
    exact ⟨hd.1 rfl, hd.2 rfl⟩

theorem updIdx_same (f : Nat → Nat) (i v : Nat) : updIdx f i v i = v := by
  simp [updIdx]

theorem updIdx_other (f : Nat → Nat) (i v j : Nat) (h : j ≠ i) :
    updIdx f i v j = f j := by
  simp [updIdx, h]

/-- Enclosing axes never coincide with the current stride axis. -/
theorem enclosing_ne_stridedim (c : NpyCtx) (j : Nat)
    (hj : j ∈ enclosingAxes c) : j ≠ c.stridedim := by
  unfold enclosingAxes at hj
  by_cases htp : c.transpose
  · rw [if_pos htp] at hj
    have := (List.mem_range'_1.mp hj).1
    omega
  · rw [if_neg htp] at hj
    have := List.mem_range.mp hj
    omega

/-- The begin callback establishes well-formedness and the pointer
invariant. -/
theorem npy_begin_wf (dims : List Nat) (strides : List Int) (tp : Bool)
    (i0 : Nat → Nat) (hd : dims ≠ []) :
    NpyWF dims strides tp (NpyArr_iterBegin dims strides tp i0) ∧
    ptrInv (NpyArr_iterBegin dims strides tp i0) := by
  have hlen : 1 ≤ dims.length := by
    cases dims with
    | nil => exact absurd rfl hd
    | cons a tl => simp
  have hemp : enclosingAxes (NpyArr_iterBegin dims strides tp i0) = [] := by
    unfold enclosingAxes NpyArr_iterBegin
    by_cases htp : tp <;> simp [htp]
  constructor
  · unfold NpyWF
    refine ⟨rfl, rfl, rfl, rfl, hlen, ?_, ?_, rfl, rfl, ?_, ?_⟩
    · exact Nat.zero_le _
    · unfold NpyArr_iterBegin
      by_cases htp : tp <;> simp [htp]
    · unfold NpyArr_iterBegin
      by_cases htp : tp <;> simp [htp, updIdx_same]
    · intro j hj
      rw [hemp] at hj
      cases hj
  · unfold ptrInv enclosedSum
    rw [hemp]
    unfold NpyArr_iterBegin
    by_cases htp : tp <;> simp [htp, updIdx_same]

/-- A successful leaf-phase call preserves well-formedness and the
pointer invariant. -/
theorem npy_leaf_wf (dims : List Nat) (strides : List Int) (tp : Bool)
    (c c1 : NpyCtx) (hwf : NpyWF dims strides tp c) (hp : ptrInv c)
    (h : NpyArr_iterNextItem c = some c1) :
    NpyWF dims strides tp c1 ∧ ptrInv c1 := by
  obtain ⟨hdims, hstr, htp, hnd, hlen, hcd, hsd, hdim, hstrd, hib, hencb⟩ := hwf
  unfold NpyArr_iterNextItem at h
  by_cases hg : c.dim ≤ c.index c.stridedim
  · rw [if_pos hg] at h; cases h
  · rw [if_neg hg] at h
    have hc1 : c1 =
        { c with
          dataptr := c.dataptr + c.stride
          index := updIdx c.index c.stridedim (c.index c.stridedim + 1) } :=
      (Option.some.inj h).symm
    subst hc1
    have henc : enclosingAxes
        { c with
          dataptr := c.dataptr + c.stride
          index := updIdx c.index c.stridedim (c.index c.stridedim + 1) }
        = enclosingAxes c := rfl
    have hsum : enclosedSum
        { c with
          dataptr := c.dataptr + c.stride
          index := updIdx c.index c.stridedim (c.index c.stridedim + 1) }
        = enclosedSum c := by
      unfold enclosedSum
      rw [henc]
      refine congrArg List.sum (List.map_congr_left ?_)
      intro j hj
      have hne := enclosing_ne_stridedim c j hj
      show c.strides.getD j 0 * ((updIdx c.index c.stridedim (c.index c.stridedim + 1) j : Int) - 1)
          = c.strides.getD j 0 * ((c.index j : Int) - 1)
      rw [updIdx_other _ _ _ _ hne]
    constructor
    · refine ⟨hdims, hstr, htp, hnd, hlen, hcd, hsd, hdim, hstrd, ?_, ?_⟩
      · show updIdx c.index c.stridedim (c.index c.stridedim + 1) c.stridedim ≤ c.dim
        rw [updIdx_same]
        omega
      · intro j hj
        rw [henc] at hj
        have hne := enclosing_ne_stridedim c j hj
        show 1 ≤ updIdx c.index c.stridedim (c.index c.stridedim + 1) j ∧
          updIdx c.index c.stridedim (c.index c.stridedim + 1) j ≤ dims.getD j 0
        rw [updIdx_other _ _ _ _ hne]
        exact hencb j hj
    · unfold ptrInv at hp ⊢
      rw [hsum]
      show c.dataptr + c.stride
          = c.stride * ((updIdx c.index c.stridedim (c.index c.stridedim + 1) c.stridedim : Nat) : Int)
            + enclosedSum c
      rw [updIdx_same, hp]
      push_cast
      ring

/-- A descent step preserves well-formedness and the pointer
invariant. -/
theorem npy_descend_wf (dims : List Nat) (strides : List Int) (tp : Bool)
    (c c1 : NpyCtx) (hwf : NpyWF dims strides tp c) (hp : ptrInv c)
    (h : NpyArr_iterNext c = .descended c1) :
    NpyWF dims strides tp c1 ∧ ptrInv c1 := by
  obtain ⟨hdims, hstr, htp, hnd, hlen, hcd, hsd, hdim, hstrd, hib, hencb⟩ := hwf
  unfold NpyArr_iterNext at h
  by_cases hg : c.ndim ≤ c.curdim ∨ c.dim ≤ c.index c.stridedim
  · rw [if_pos hg] at h; cases h
  · rw [if_neg hg] at h
    push_neg at hg
    obtain ⟨hcdlt, hilt⟩ := hg
    have hc1 : c1 =
        { c with
          curdim := c.curdim + 1
          stridedim := c.nextAxis
          dim := c.dims.getD c.nextAxis 0
          stride := c.strides.getD c.nextAxis 0
          index := updIdx (updIdx c.index c.stridedim (c.index c.stridedim + 1))
                     c.nextAxis 0 } :=
      (NpyNextRes.descended.inj h).symm
    subst hc1
    cases tp with
    | false =>
        have htp2 : c.transpose = false := htp
        have hsde : c.stridedim = c.curdim := by simpa using hsd
        have hna : c.nextAxis = c.stridedim + 1 := by
          unfold NpyCtx.nextAxis
          rw [htp2]
          simp
        have hne10 : c.stridedim + 1 ≠ c.stridedim := by omega
        have henc0 : enclosingAxes c = List.range c.stridedim := by
          unfold enclosingAxes
          rw [htp2]
          simp
        have henc1 : enclosingAxes
            { c with
              curdim := c.curdim + 1
              stridedim := c.nextAxis
              dim := c.dims.getD c.nextAxis 0
              stride := c.strides.getD c.nextAxis 0
              index := updIdx (updIdx c.index c.stridedim (c.index c.stridedim + 1))
                         c.nextAxis 0 }
            = enclosingAxes c ++ [c.stridedim] := by
          unfold enclosingAxes
          rw [htp2]
          simp only [if_false, Bool.false_eq_true]
          rw [hna, List.range_succ]
        refine ⟨⟨hdims, hstr, htp, hnd, hlen, ?_, ?_, hdims ▸ rfl, hstr ▸ rfl, ?_, ?_⟩, ?_⟩
        · show c.curdim + 1 ≤ c.ndim
          omega
        · show c.nextAxis = if false = true then c.ndim - (c.curdim + 1) else c.curdim + 1
          rw [hna, hsde]
          simp
        · show updIdx (updIdx c.index c.stridedim (c.index c.stridedim + 1))
              c.nextAxis 0 c.nextAxis ≤ c.dims.getD c.nextAxis 0
          rw [updIdx_same]
          exact Nat.zero_le _
        · intro j hj
          rw [henc1] at hj
          rcases List.mem_append.mp hj with hj1 | hj1
          · have hne := enclosing_ne_stridedim c j hj1
            have hjlt : j < c.stridedim := by
              rw [henc0] at hj1
              exact List.mem_range.mp hj1
            show 1 ≤ updIdx (updIdx c.index c.stridedim (c.index c.stridedim + 1))
                c.nextAxis 0 j ∧
              updIdx (updIdx c.index c.stridedim (c.index c.stridedim + 1))
                c.nextAxis 0 j ≤ dims.getD j 0
            rw [updIdx_other _ _ _ _ (by omega : j ≠ c.nextAxis),
                updIdx_other _ _ _ _ hne]
            exact hencb j hj1
          · have hjs : j = c.stridedim := List.mem_singleton.mp hj1
            subst hjs
            show 1 ≤ updIdx (updIdx c.index c.stridedim (c.index c.stridedim + 1))
                c.nextAxis 0 c.stridedim ∧
              updIdx (updIdx c.index c.stridedim (c.index c.stridedim + 1))
                c.nextAxis 0 c.stridedim ≤ dims.getD c.stridedim 0
            rw [updIdx_other _ _ _ _ (by omega : c.stridedim ≠ c.nextAxis),
                updIdx_same, ← hdim]
            omega
        · unfold ptrInv at hp ⊢
          show c.dataptr = c.strides.getD c.nextAxis 0
              * ((updIdx (updIdx c.index c.stridedim (c.index c.stridedim + 1))
                    c.nextAxis 0 c.nextAxis : Nat) : Int)
              + enclosedSum _
          rw [updIdx_same]
          unfold enclosedSum
          rw [henc1, List.map_append, List.sum_append]
          have hcongr : List.map
              (fun j => ({ c with
                  curdim := c.curdim + 1
                  stridedim := c.nextAxis
                  dim := c.dims.getD c.nextAxis 0
                  stride := c.strides.getD c.nextAxis 0
                  index := updIdx (updIdx c.index c.stridedim (c.index c.stridedim + 1))
                             c.nextAxis 0 } : NpyCtx).strides.getD j 0
                * ((({ c with
                  curdim := c.curdim + 1
                  stridedim := c.nextAxis
                  dim := c.dims.getD c.nextAxis 0
                  stride := c.strides.getD c.nextAxis 0
                  index := updIdx (updIdx c.index c.stridedim (c.index c.stridedim + 1))
                             c.nextAxis 0 } : NpyCtx).index j : Int) - 1))
              (enclosingAxes c)
              = List.map (fun j => c.strides.getD j 0 * ((c.index j : Int) - 1))
                  (enclosingAxes c) := by
            refine List.map_congr_left ?_
            intro j hj
            have hne := enclosing_ne_stridedim c j hj
            have hjlt : j < c.stridedim := by
              rw [henc0] at hj
              exact List.mem_range.mp hj
            show c.strides.getD j 0
                * ((updIdx (updIdx c.index c.stridedim (c.index c.stridedim + 1))
                      c.nextAxis 0 j : Nat) - 1 : Int)
                = c.strides.getD j 0 * ((c.index j : Int) - 1)
            rw [updIdx_other _ _ _ _ (by omega : j ≠ c.nextAxis),
                updIdx_other _ _ _ _ hne]
          rw [hcongr]
          have hsum1 : (List.map
              (fun j => ({ c with
                  curdim := c.curdim + 1
                  stridedim := c.nextAxis
                  dim := c.dims.getD c.nextAxis 0
                  stride := c.strides.getD c.nextAxis 0
                  index := updIdx (updIdx c.index c.stridedim (c.index c.stridedim + 1))
                             c.nextAxis 0 } : NpyCtx).strides.getD j 0
                * ((({ c with
                  curdim := c.curdim + 1
                  stridedim := c.nextAxis
                  dim := c.dims.getD c.nextAxis 0
                  stride := c.strides.getD c.nextAxis 0
                  index := updIdx (updIdx c.index c.stridedim (c.index c.stridedim + 1))
                             c.nextAxis 0 } : NpyCtx).index j : Int) - 1))
              [c.stridedim]).sum
              = c.strides.getD c.stridedim 0 * ((c.index c.stridedim : Int) + 1 - 1) := by
            simp only [List.map_cons, List.map_nil, List.sum_cons, List.sum_nil]
            rw [updIdx_other _ _ _ _ (by omega : c.stridedim ≠ c.nextAxis),
                updIdx_same]
            push_cast
            ring
          have hfold : (List.map (fun j => c.strides.getD j 0 * ((c.index j : Int) - 1))
              (enclosingAxes c)).sum = enclosedSum c := rfl
          rw [hsum1, hfold, hp, hstrd, hstr]
          push_cast
          ring
    | true =>
        have htp2 : c.transpose = true := htp
        have hsde : c.stridedim = c.ndim - c.curdim := by simpa using hsd
        have hs1 : 1 ≤ c.stridedim := by omega
        have hna : c.nextAxis = c.stridedim - 1 := by
          unfold NpyCtx.nextAxis
          rw [htp2]
          simp
        have hsle : c.stridedim ≤ c.ndim := by omega
        have henc0 : enclosingAxes c = List.range' (c.stridedim + 1) (c.ndim - c.stridedim) := by
          unfold enclosingAxes
          rw [htp2]
          simp
        have henc1 : enclosingAxes
            { c with
              curdim := c.curdim + 1
              stridedim := c.nextAxis
              dim := c.dims.getD c.nextAxis 0
              stride := c.strides.getD c.nextAxis 0
              index := updIdx (updIdx c.index c.stridedim (c.index c.stridedim + 1))
                         c.nextAxis 0 }
            = c.stridedim :: enclosingAxes c := by
          unfold enclosingAxes
          rw [htp2]
          simp only [if_true]
          rw [hna]
          have h1 : c.stridedim - 1 + 1 = c.stridedim := by omega
          have h2 : c.ndim - (c.stridedim - 1) = (c.ndim - c.stridedim) + 1 := by omega
          rw [h1, h2, List.range'_succ]
        refine ⟨⟨hdims, hstr, htp, hnd, hlen, ?_, ?_, hdims ▸ rfl, hstr ▸ rfl, ?_, ?_⟩, ?_⟩
        · show c.curdim + 1 ≤ c.ndim
          omega
        · show c.nextAxis = if true = true then c.ndim - (c.curdim + 1) else c.curdim + 1
          rw [hna, hsde]
          simp
          omega
        · show updIdx (updIdx c.index c.stridedim (c.index c.stridedim + 1))
              c.nextAxis 0 c.nextAxis ≤ c.dims.getD c.nextAxis 0
          rw [updIdx_same]
          exact Nat.zero_le _
        · intro j hj
          rw [henc1] at hj
          rcases List.mem_cons.mp hj with hj1 | hj1
          · subst hj1
            show 1 ≤ updIdx (updIdx c.index c.stridedim (c.index c.stridedim + 1))
                c.nextAxis 0 c.stridedim ∧
              updIdx (updIdx c.index c.stridedim (c.index c.stridedim + 1))
                c.nextAxis 0 c.stridedim ≤ dims.getD c.stridedim 0
            rw [updIdx_other _ _ _ _ (by omega : c.stridedim ≠ c.nextAxis),
                updIdx_same, ← hdim]
            omega
          · have hne := enclosing_ne_stridedim c j hj1
            have hjgt : c.stridedim + 1 ≤ j := by
              rw [henc0] at hj1
              exact (List.mem_range'_1.mp hj1).1
            show 1 ≤ updIdx (updIdx c.index c.stridedim (c.index c.stridedim + 1))
                c.nextAxis 0 j ∧
              updIdx (updIdx c.index c.stridedim (c.index c.stridedim + 1))
                c.nextAxis 0 j ≤ dims.getD j 0
            rw [updIdx_other _ _ _ _ (by omega : j ≠ c.nextAxis),
                updIdx_other _ _ _ _ hne]
            exact hencb j hj1
        · unfold ptrInv at hp ⊢
          show c.dataptr = c.strides.getD c.nextAxis 0
              * ((updIdx (updIdx c.index c.stridedim (c.index c.stridedim + 1))
                    c.nextAxis 0 c.nextAxis : Nat) : Int)
              + enclosedSum _
          rw [updIdx_same]
          unfold enclosedSum
          rw [henc1, List.map_cons, List.sum_cons]
          have hcongr : List.map
              (fun j => ({ c with
                  curdim := c.curdim + 1
                  stridedim := c.nextAxis
                  dim := c.dims.getD c.nextAxis 0
                  stride := c.strides.getD c.nextAxis 0
                  index := updIdx (updIdx c.index c.stridedim (c.index c.stridedim + 1))
                             c.nextAxis 0 } : NpyCtx).strides.getD j 0
                * ((({ c with
                  curdim := c.curdim + 1
                  stridedim := c.nextAxis
                  dim := c.dims.getD c.nextAxis 0
                  stride := c.strides.getD c.nextAxis 0
                  index := updIdx (updIdx c.index c.stridedim (c.index c.stridedim + 1))
                             c.nextAxis 0 } : NpyCtx).index j : Int) - 1))
              (enclosingAxes c)
              = List.map (fun j => c.strides.getD j 0 * ((c.index j : Int) - 1))
                  (enclosingAxes c) := by
            refine List.map_congr_left ?_
            intro j hj
            have hne := enclosing_ne_stridedim c j hj
            have hjgt : c.stridedim + 1 ≤ j := by
              rw [henc0] at hj
              exact (List.mem_range'_1.mp hj).1
            show c.strides.getD j 0
                * ((updIdx (updIdx c.index c.stridedim (c.index c.stridedim + 1))
                      c.nextAxis 0 j : Nat) - 1 : Int)
                = c.strides.getD j 0 * ((c.index j : Int) - 1)
            rw [updIdx_other _ _ _ _ (by omega : j ≠ c.nextAxis),
                updIdx_other _ _ _ _ hne]
          rw [hcongr]
          have hhead : ({ c with
                  curdim := c.curdim + 1
                  stridedim := c.nextAxis
                  dim := c.dims.getD c.nextAxis 0
                  stride := c.strides.getD c.nextAxis 0
                  index := updIdx (updIdx c.index c.stridedim (c.index c.stridedim + 1))
                             c.nextAxis 0 } : NpyCtx).strides.getD c.stridedim 0
              * ((({ c with
                  curdim := c.curdim + 1
                  stridedim := c.nextAxis
                  dim := c.dims.getD c.nextAxis 0
                  stride := c.strides.getD c.nextAxis 0
                  index := updIdx (updIdx c.index c.stridedim (c.index c.stridedim + 1))
                             c.nextAxis 0 } : NpyCtx).index c.stridedim : Int) - 1)
              = c.strides.getD c.stridedim 0 * ((c.index c.stridedim : Int) + 1 - 1) := by
            show c.strides.getD c.stridedim 0
                * ((updIdx (updIdx c.index c.stridedim (c.index c.stridedim + 1))
                      c.nextAxis 0 c.stridedim : Nat) - 1 : Int)
                = c.strides.getD c.stridedim 0 * ((c.index c.stridedim : Int) + 1 - 1)
            rw [updIdx_other _ _ _ _ (by omega : c.stridedim ≠ c.nextAxis),
                updIdx_same]
            push_cast
            ring
          have hfold : (List.map (fun j => c.strides.getD j 0 * ((c.index j : Int) - 1))
              (enclosingAxes c)).sum = enclosedSum c := rfl
          rw [hhead, hfold, hp, hstrd, hstr]
          push_cast
          ring

/-- A dimension pop (invoked by the writer only on descended levels)
preserves well-formedness and the pointer invariant. -/
theorem npy_pop_wf (dims : List Nat) (strides : List Int) (tp : Bool)
    (c : NpyCtx) (hwf : NpyWF dims strides tp c) (hp : ptrInv c)
    (hc : 1 ≤ c.curdim) :
    NpyWF dims strides tp (NpyArrPassThru_iterEnd c) ∧
    ptrInv (NpyArrPassThru_iterEnd c) := by
  obtain ⟨hdims, hstr, htp, hnd, hlen, hcd, hsd, hdim, hstrd, hib, hencb⟩ := hwf
  have hc1 : NpyArrPassThru_iterEnd c =
      { c with
        curdim := c.curdim - 1
        dataptr := (c.dataptr - c.stride * (c.index c.stridedim : Int))
          + c.strides.getD c.prevAxis 0
        stridedim := c.prevAxis
        dim := c.dims.getD c.prevAxis 0
        stride := c.strides.getD c.prevAxis 0 } := rfl
  rw [hc1]
  cases tp with
  | false =>
      have htp2 : c.transpose = false := htp
      have hsde : c.stridedim = c.curdim := by simpa using hsd
      have hpa : c.prevAxis = c.stridedim - 1 := by
        unfold NpyCtx.prevAxis
        rw [htp2]
        simp
      have hs1 : 1 ≤ c.stridedim := by omega
      have henc0 : enclosingAxes c = List.range c.stridedim := by
        unfold enclosingAxes
        rw [htp2]
        simp
      have hsplit : List.range c.stridedim
          = List.range (c.stridedim - 1) ++ [c.stridedim - 1] := by
        have h1 : c.stridedim = (c.stridedim - 1) + 1 := by omega
        rw [h1, List.range_succ]
        simp
      have henc1 : enclosingAxes
          ({ c with
            curdim := c.curdim - 1
            dataptr := (c.dataptr - c.stride * (c.index c.stridedim : Int))
              + c.strides.getD c.prevAxis 0
            stridedim := c.prevAxis
            dim := c.dims.getD c.prevAxis 0
            stride := c.strides.getD c.prevAxis 0 } : NpyCtx)
          = List.range (c.stridedim - 1) := by
        unfold enclosingAxes
        rw [htp2]
        simp only [if_false, Bool.false_eq_true]
        rw [hpa]
      have hmem1 : c.stridedim - 1 ∈ enclosingAxes c := by
        rw [henc0]
        exact List.mem_range.mpr (by omega)
      refine ⟨⟨hdims, hstr, htp, hnd, hlen, ?_, ?_, hdims ▸ rfl, hstr ▸ rfl, ?_, ?_⟩, ?_⟩
      · show c.curdim - 1 ≤ c.ndim
        omega
      · show c.prevAxis = if false = true then c.ndim - (c.curdim - 1) else c.curdim - 1
        rw [hpa, hsde]
        simp
      · show c.index c.prevAxis ≤ c.dims.getD c.prevAxis 0
        rw [hpa, hdims]
        exact (hencb _ hmem1).2
      · intro j hj
        rw [henc1] at hj
        have hjm : j ∈ enclosingAxes c := by
          rw [henc0]
          have := List.mem_range.mp hj
          exact List.mem_range.mpr (by omega)
        exact hencb j hjm
      · unfold ptrInv at hp ⊢
        show (c.dataptr - c.stride * (c.index c.stridedim : Int))
            + c.strides.getD c.prevAxis 0
            = c.strides.getD c.prevAxis 0 * ((c.index c.prevAxis : Nat) : Int)
              + enclosedSum _
        have hsum : enclosedSum
            ({ c with
              curdim := c.curdim - 1
              dataptr := (c.dataptr - c.stride * (c.index c.stridedim : Int))
                + c.strides.getD c.prevAxis 0
              stridedim := c.prevAxis
              dim := c.dims.getD c.prevAxis 0
              stride := c.strides.getD c.prevAxis 0 } : NpyCtx)
            = (List.map (fun j => c.strides.getD j 0 * ((c.index j : Int) - 1))
                (List.range (c.stridedim - 1))).sum := by
          unfold enclosedSum
          rw [henc1]
        have hold : enclosedSum c
            = (List.map (fun j => c.strides.getD j 0 * ((c.index j : Int) - 1))
                (List.range (c.stridedim - 1))).sum
              + c.strides.getD (c.stridedim - 1) 0
                * ((c.index (c.stridedim - 1) : Int) - 1) := by
          unfold enclosedSum
          rw [henc0, hsplit, List.map_append, List.sum_append]
          simp
        rw [hsum, hp, hold, hpa]
        ring
  | true =>
      have htp2 : c.transpose = true := htp
      have hsde : c.stridedim = c.ndim - c.curdim := by simpa using hsd
      have hpa : c.prevAxis = c.stridedim + 1 := by
        unfold NpyCtx.prevAxis
        rw [htp2]
        simp
      have hslt : c.stridedim < c.ndim := by omega
      have henc0 : enclosingAxes c
          = List.range' (c.stridedim + 1) (c.ndim - c.stridedim) := by
        unfold enclosingAxes
        rw [htp2]
        simp
      have hsplit : List.range' (c.stridedim + 1) (c.ndim - c.stridedim)
          = (c.stridedim + 1) :: List.range' (c.stridedim + 2) (c.ndim - (c.stridedim + 1)) := by
        have h1 : c.ndim - c.stridedim = (c.ndim - (c.stridedim + 1)) + 1 := by omega
        rw [h1, List.range'_succ]
      have henc1 : enclosingAxes
          ({ c with
            curdim := c.curdim - 1
            dataptr := (c.dataptr - c.stride * (c.index c.stridedim : Int))
              + c.strides.getD c.prevAxis 0
            stridedim := c.prevAxis
            dim := c.dims.getD c.prevAxis 0
            stride := c.strides.getD c.prevAxis 0 } : NpyCtx)
          = List.range' (c.stridedim + 2) (c.ndim - (c.stridedim + 1)) := by
        unfold enclosingAxes
        rw [htp2]
        simp only [if_true]
        rw [hpa]
      have hmem1 : c.stridedim + 1 ∈ enclosingAxes c := by
        rw [henc0]
        exact List.mem_range'_1.mpr (by omega)
      refine ⟨⟨hdims, hstr, htp, hnd, hlen, ?_, ?_, hdims ▸ rfl, hstr ▸ rfl, ?_, ?_⟩, ?_⟩
      · show c.curdim - 1 ≤ c.ndim
        omega
      · show c.prevAxis = if true = true then c.ndim - (c.curdim - 1) else c.curdim - 1
        rw [hpa, hsde]
        simp
        omega
      · show c.index c.prevAxis ≤ c.dims.getD c.prevAxis 0
        rw [hpa, hdims]
        exact (hencb _ hmem1).2
      · intro j hj
        rw [henc1] at hj
        have hjm : j ∈ enclosingAxes c := by
          rw [henc0]
          have := List.mem_range'_1.mp hj
          exact List.mem_range'_1.mpr (by omega)
        exact hencb j hjm
      · unfold ptrInv at hp ⊢
        show (c.dataptr - c.stride * (c.index c.stridedim : Int))
            + c.strides.getD c.prevAxis 0
            = c.strides.getD c.prevAxis 0 * ((c.index c.prevAxis : Nat) : Int)
              + enclosedSum _
        have hsum : enclosedSum
            ({ c with
              curdim := c.curdim - 1
              dataptr := (c.dataptr - c.stride * (c.index c.stridedim : Int))
                + c.strides.getD c.prevAxis 0
              stridedim := c.prevAxis
              dim := c.dims.getD c.prevAxis 0
              stride := c.strides.getD c.prevAxis 0 } : NpyCtx)
            = (List.map (fun j => c.strides.getD j 0 * ((c.index j : Int) - 1))
                (List.range' (c.stridedim + 2) (c.ndim - (c.stridedim + 1)))).sum := by
          unfold enclosedSum
          rw [henc1]
        have hold : enclosedSum c
            = c.strides.getD (c.stridedim + 1) 0
                * ((c.index (c.stridedim + 1) : Int) - 1)
              + (List.map (fun j => c.strides.getD j 0 * ((c.index j : Int) - 1))
                (List.range' (c.stridedim + 2) (c.ndim - (c.stridedim + 1)))).sum := by
          unfold enclosedSum
          rw [henc0, hsplit, List.map_cons, List.sum_cons]
        rw [hsum, hp, hold, hpa]
        ring

/-- Every writer-observable state of a strider is well-formed and
satisfies the amended pointer invariant. -/
theorem npy_reach_wf (dims : List Nat) (strides : List Int) (tp : Bool)
    (i0 : Nat → Nat) (c : NpyCtx) (hd : dims ≠ [])
    (hr : NpyReach dims strides tp i0 c) :
    NpyWF dims strides tp c ∧ ptrInv c := by
  induction hr with
  | begin => exact npy_begin_wf dims strides tp i0 hd
  | leaf hr hstep ih => exact npy_leaf_wf dims strides tp _ _ ih.1 ih.2 hstep
  | descend hr hstep ih => exact npy_descend_wf dims strides tp _ _ ih.1 ih.2 hstep
  | pop hr hc ih => exact npy_pop_wf dims strides tp _ ih.1 ih.2 hc

/-- CLAIM C5 (counterexample). Right after the first descent-phase next
call on a 2 x 3 array with strides 3 and 1, the data pointer still sits
at the base (offset 0) while the claimed sum over all axes of stride
times index is 3: the descent increments the outer counter eagerly
(line 743) without moving the data pointer, so the pointer equation of
the claim fails at a writer-observable point. -/
theorem strider_spec_pointer_eq_fails :
    NpyReach [2, 3] [3, 1] false (fun _ => 0) strider2x3a ∧
    ¬ (specPtrEq strider2x3a ∧
       strider2x3a.index strider2x3a.stridedim < strider2x3a.dim) := by
  constructor
  · exact NpyReach.descend NpyReach.begin rfl
  · intro hcl
    have h1 := hcl.1
    unfold specPtrEq at h1
    exact absurd h1 (by decide)

/-- CLAIM C5 (amended). At every writer-observable point of a strider
iteration — after begin, after each successful leaf-phase next, after
each descent, and after each dimension pop — the data pointer equals
the base plus stride times counter on the current stride axis plus, for
every enclosing axis, stride times (counter minus one) — the counters
of enclosing axes being one past the position the pointer sits in,
because the source increments them eagerly on descent — and the counter
of the current stride axis stays within [0, size of that axis],
reaching size exactly when the axis is exhausted. -/
theorem strider_pointer_invariant (dims : List Nat) (strides : List Int)
    (tp : Bool) (i0 : Nat → Nat) (c : NpyCtx) (hd : dims ≠ [])
    (hr : NpyReach dims strides tp i0 c) :
    ptrInv c ∧ c.index c.stridedim ≤ c.dim := by
  obtain ⟨hwf, hp⟩ := npy_reach_wf dims strides tp i0 c hd hr
  exact ⟨hp, hwf.2.2.2.2.2.2.2.2.2.1⟩

/-- Witness for the amended C5 theorem at the state after the first
descent of the 2 x 3 strider. -/
theorem strider_pointer_invariant_witness :
    (([2, 3] : List Nat) ≠ []) ∧
    (ptrInv strider2x3a ∧
     strider2x3a.index strider2x3a.stridedim ≤ strider2x3a.dim) :=
  ⟨by decide,
   strider_pointer_invariant [2, 3] [3, 1] false (fun _ => 0) strider2x3a
     (by decide) (NpyReach.descend NpyReach.begin rfl)⟩

theorem needFuel_pos (M r n : Nat) : 1 ≤ needFuel M r n := by
  cases r with
  | zero => simp [needFuel]
  | succ r0 => simp [needFuel]

theorem needFuel_mono (M r : Nat) {n m : Nat} (h : n ≤ m) :
    needFuel M r n ≤ needFuel M r m := by
  cases r with
  | zero => simp [needFuel]; omega
  | succ r0 =>
      simp only [needFuel]
      have := Nat.mul_le_mul_right (needFuel M r0 M + 1) h
      omega

theorem getD_le_maxDim (dims : List Nat) (j : Nat) :
    dims.getD j 0 ≤ maxDim dims := by
  induction dims generalizing j with
  | nil => simp [maxDim]
  | cons a tl ih =>
      cases j with
      | zero => simp [maxDim, List.foldr]
      | succ j0 =>
          have := ih j0
          simp only [maxDim, List.foldr] at this ⊢
          simp only [List.getD_cons_succ]
          omega

/-- Specification of the leaf loop: from a counter value within bounds
it emits exactly the remaining elements of the current axis, advancing
the data pointer by that many strides and leaving every other field and
every other counter unchanged. -/
theorem itemLoop_spec : ∀ (fuel : Nat) (c : NpyCtx),
    c.index c.stridedim ≤ c.dim →
    (c.dim - c.index c.stridedim) + 1 ≤ fuel →
    ∃ c2, NpyArr_itemLoop fuel c = some (c2, c.dim - c.index c.stridedim) ∧
      c2.dims = c.dims ∧ c2.strides = c.strides ∧ c2.transpose = c.transpose ∧
      c2.ndim = c.ndim ∧ c2.curdim = c.curdim ∧ c2.stridedim = c.stridedim ∧
      c2.dim = c.dim ∧ c2.stride = c.stride ∧
      c2.index c.stridedim = c.dim ∧
      (∀ j, j ≠ c.stridedim → c2.index j = c.index j) ∧
      c2.dataptr = c.dataptr
        + c.stride * ((c.dim - c.index c.stridedim : Nat) : Int) := by
  intro fuel
  induction fuel with
  | zero => intro c hib hf; omega
  | succ fuel ih =>
      intro c hib hf
      have hstep : NpyArr_itemLoop (fuel + 1) c =
          match NpyArr_iterNextItem c with
          | none => some (c, 0)
          | some c1 =>
              match NpyArr_itemLoop fuel c1 with
              | none => none
              | some (c2, n) => some (c2, n + 1) := rfl
      by_cases hi : c.dim ≤ c.index c.stridedim
      · have hni : NpyArr_iterNextItem c = none := by
          unfold NpyArr_iterNextItem
          rw [if_pos hi]
        have hz : c.dim - c.index c.stridedim = 0 := by omega
        refine ⟨c, ?_, rfl, rfl, rfl, rfl, rfl, rfl, rfl, rfl, by omega, fun j _ => rfl, ?_⟩
        · rw [hstep, hni, hz]
        · rw [hz]
          push_cast
          ring
      · have hni : NpyArr_iterNextItem c = some
            { c with
              dataptr := c.dataptr + c.stride
              index := updIdx c.index c.stridedim (c.index c.stridedim + 1) } := by
          unfold NpyArr_iterNextItem
          rw [if_neg hi]
          rfl
        have hc1ib : ({ c with
              dataptr := c.dataptr + c.stride
              index := updIdx c.index c.stridedim (c.index c.stridedim + 1) } : NpyCtx).index
            ({ c with
              dataptr := c.dataptr + c.stride
              index := updIdx c.index c.stridedim (c.index c.stridedim + 1) } : NpyCtx).stridedim
            ≤ ({ c with
              dataptr := c.dataptr + c.stride
              index := updIdx c.index c.stridedim (c.index c.stridedim + 1) } : NpyCtx).dim := by
          show updIdx c.index c.stridedim (c.index c.stridedim + 1) c.stridedim ≤ c.dim
          rw [updIdx_same]
          omega
        have hc1f : (({ c with
              dataptr := c.dataptr + c.stride
              index := updIdx c.index c.stridedim (c.index c.stridedim + 1) } : NpyCtx).dim
            - ({ c with
              dataptr := c.dataptr + c.stride
              index := updIdx c.index c.stridedim (c.index c.stridedim + 1) } : NpyCtx).index
              ({ c with
              dataptr := c.dataptr + c.stride
              index := updIdx c.index c.stridedim (c.index c.stridedim + 1) } : NpyCtx).stridedim) + 1
            ≤ fuel := by
          show (c.dim - updIdx c.index c.stridedim (c.index c.stridedim + 1) c.stridedim) + 1 ≤ fuel
          rw [updIdx_same]
          omega
        obtain ⟨c2, hrun, hdims2, hstr2, htp2, hnd2, hcd2, hsd2, hdim2, hstrd2, hix2, hunt2, hdp2⟩ :=
          ih _ hc1ib hc1f
        have hcount : (({ c with
              dataptr := c.dataptr + c.stride
              index := updIdx c.index c.stridedim (c.index c.stridedim + 1) } : NpyCtx).dim
            - ({ c with
              dataptr := c.dataptr + c.stride
              index := updIdx c.index c.stridedim (c.index c.stridedim + 1) } : NpyCtx).index
              ({ c with
              dataptr := c.dataptr + c.stride
              index := updIdx c.index c.stridedim (c.index c.stridedim + 1) } : NpyCtx).stridedim)
            = c.dim - c.index c.stridedim - 1 := by
          show c.dim - updIdx c.index c.stridedim (c.index c.stridedim + 1) c.stridedim
              = c.dim - c.index c.stridedim - 1
          rw [updIdx_same]
          omega
        refine ⟨c2, ?_, hdims2, hstr2, htp2, hnd2, hcd2, hsd2, hdim2, hstrd2, ?_, ?_, ?_⟩
        · rw [hstep, hni]
          dsimp only
          rw [hrun]
          dsimp only
          rw [hcount]
          have h11 : c.dim - c.index c.stridedim - 1 + 1 = c.dim - c.index c.stridedim := by omega
          rw [h11]
        · rw [hix2]
        · intro j hj
          rw [hunt2 j hj]
          exact updIdx_other _ _ _ _ hj
        · rw [hdp2, hcount]
          show c.dataptr + c.stride + c.stride * ((c.dim - c.index c.stridedim - 1 : Nat) : Int)
              = c.dataptr + c.stride * ((c.dim - c.index c.stridedim : Nat) : Int)
          have h1 : c.dim - c.index c.stridedim = (c.dim - c.index c.stridedim - 1) + 1 := by omega
          rw [h1]
          push_cast
          ring

@[simp] theorem leafStep_dims (c : NpyCtx) : (NpyArr_leafStep c).dims = c.dims := rfl
@[simp] theorem leafStep_strides (c : NpyCtx) : (NpyArr_leafStep c).strides = c.strides := rfl
@[simp] theorem leafStep_transpose (c : NpyCtx) : (NpyArr_leafStep c).transpose = c.transpose := rfl
@[simp] theorem leafStep_ndim (c : NpyCtx) : (NpyArr_leafStep c).ndim = c.ndim := rfl
@[simp] theorem leafStep_curdim (c : NpyCtx) : (NpyArr_leafStep c).curdim = c.curdim := rfl
@[simp] theorem leafStep_stridedim (c : NpyCtx) : (NpyArr_leafStep c).stridedim = c.stridedim := rfl
@[simp] theorem leafStep_dim (c : NpyCtx) : (NpyArr_leafStep c).dim = c.dim := rfl
@[simp] theorem leafStep_stride (c : NpyCtx) : (NpyArr_leafStep c).stride = c.stride := rfl
@[simp] theorem leafStep_dataptr (c : NpyCtx) :
    (NpyArr_leafStep c).dataptr = c.dataptr + c.stride := rfl
@[simp] theorem leafStep_index (c : NpyCtx) :
    (NpyArr_leafStep c).index
      = updIdx c.index c.stridedim (c.index c.stridedim + 1) := rfl

@[simp] theorem descendStep_dims (c : NpyCtx) : (NpyArr_descendStep c).dims = c.dims := rfl
@[simp] theorem descendStep_strides (c : NpyCtx) : (NpyArr_descendStep c).strides = c.strides := rfl
@[simp] theorem descendStep_transpose (c : NpyCtx) : (NpyArr_descendStep c).transpose = c.transpose := rfl
@[simp] theorem descendStep_ndim (c : NpyCtx) : (NpyArr_descendStep c).ndim = c.ndim := rfl
@[simp] theorem descendStep_curdim (c : NpyCtx) : (NpyArr_descendStep c).curdim = c.curdim + 1 := rfl
@[simp] theorem descendStep_stridedim (c : NpyCtx) :
    (NpyArr_descendStep c).stridedim = c.nextAxis := rfl
@[simp] theorem descendStep_dim (c : NpyCtx) :
    (NpyArr_descendStep c).dim = c.dims.getD c.nextAxis 0 := rfl
@[simp] theorem descendStep_stride (c : NpyCtx) :
    (NpyArr_descendStep c).stride = c.strides.getD c.nextAxis 0 := rfl
@[simp] theorem descendStep_dataptr (c : NpyCtx) :
    (NpyArr_descendStep c).dataptr = c.dataptr := rfl
@[simp] theorem descendStep_index (c : NpyCtx) :
    (NpyArr_descendStep c).index
      = updIdx (updIdx c.index c.stridedim (c.index c.stridedim + 1)) c.nextAxis 0 := rfl

@[simp] theorem passThruEnd_dims (c : NpyCtx) : (NpyArrPassThru_iterEnd c).dims = c.dims := rfl
@[simp] theorem passThruEnd_strides (c : NpyCtx) : (NpyArrPassThru_iterEnd c).strides = c.strides := rfl
@[simp] theorem passThruEnd_transpose (c : NpyCtx) : (NpyArrPassThru_iterEnd c).transpose = c.transpose := rfl
@[simp] theorem passThruEnd_ndim (c : NpyCtx) : (NpyArrPassThru_iterEnd c).ndim = c.ndim := rfl
@[simp] theorem passThruEnd_curdim (c : NpyCtx) :
    (NpyArrPassThru_iterEnd c).curdim = c.curdim - 1 := rfl
@[simp] theorem passThruEnd_stridedim (c : NpyCtx) :
    (NpyArrPassThru_iterEnd c).stridedim = c.prevAxis := rfl
@[simp] theorem passThruEnd_dim (c : NpyCtx) :
    (NpyArrPassThru_iterEnd c).dim = c.dims.getD c.prevAxis 0 := rfl
@[simp] theorem passThruEnd_stride (c : NpyCtx) :
    (NpyArrPassThru_iterEnd c).stride = c.strides.getD c.prevAxis 0 := rfl
@[simp] theorem passThruEnd_dataptr (c : NpyCtx) :
    (NpyArrPassThru_iterEnd c).dataptr
      = (c.dataptr - c.stride * (c.index c.stridedim : Int))
        + c.strides.getD c.prevAxis 0 := rfl
@[simp] theorem passThruEnd_index (c : NpyCtx) :
    (NpyArrPassThru_iterEnd c).index = c.index := rfl

/-- Specification of one writer level driving the strider: from a
well-placed context with `r` dimensions below and a counter value `i`
on the current axis, the loop terminates within the stated fuel and
emits `(dim - i) * prodBelow r` leaves, leaving the current counter at
`dim`, the data pointer advanced by `(dim - i)` strides of the current
axis, the geometry fields restored, and every counter of an axis not at
or below the level unchanged. -/
theorem runLevel_spec (dims : List Nat) (strides : List Int) (tp : Bool)
    (M : Nat) (hM : ∀ j, dims.getD j 0 ≤ M) :
    ∀ (fuel r : Nat) (c : NpyCtx),
      GoodCtx dims strides tp r c →
      c.index c.stridedim ≤ c.dim →
      needFuel M r (c.dim - c.index c.stridedim) ≤ fuel →
      ∃ c2, NpyArr_runLevel fuel c
          = some (c2, (c.dim - c.index c.stridedim)
              * prodBelow tp dims (dims.length - 1) r) ∧
        c2.dims = c.dims ∧ c2.strides = c.strides ∧ c2.transpose = c.transpose ∧
        c2.ndim = c.ndim ∧ c2.curdim = c.curdim ∧ c2.stridedim = c.stridedim ∧
        c2.dim = c.dim ∧ c2.stride = c.stride ∧
        c2.index c.stridedim = c.dim ∧
        (∀ j, (∀ r2, r2 ≤ r → j ≠ axisOf tp (dims.length - 1) r2) →
          c2.index j = c.index j) ∧
        c2.dataptr = c.dataptr
          + c.stride * ((c.dim - c.index c.stridedim : Nat) : Int) := by
  intro fuel
  induction fuel with
  | zero =>
      intro r c hg hib hf
      have := needFuel_pos M r (c.dim - c.index c.stridedim)
      omega
  | succ fuel ih =>
      intro r c hg hib hf
      obtain ⟨hdims, hstr, htp, hnd, hlen, hrle, hcd, hsd, hdim, hstrd⟩ := hg
      have hstep : NpyArr_runLevel (fuel + 1) c =
          match NpyArr_iterNext c with
          | .switched none => some (c, 0)
          | .switched (some c1) =>
              match NpyArr_itemLoop fuel c1 with
              | none => none
              | some (c2, n) => some (c2, n + 1)
          | .descended c1 =>
              match NpyArr_runLevel fuel c1 with
              | none => none
              | some (c2, n) =>
                  match NpyArr_runLevel fuel (NpyArrPassThru_iterEnd c2) with
                  | none => none
                  | some (c4, m) => some (c4, n + m) := rfl
      by_cases hi : c.dim ≤ c.index c.stridedim
      · -- current axis exhausted (or leaf level done): switched, item returns none
        have hguard : c.ndim ≤ c.curdim ∨ c.dim ≤ c.index c.stridedim := Or.inr hi
        have hnext : NpyArr_iterNext c = .switched (NpyArr_iterNextItem c) := by
          unfold NpyArr_iterNext
          rw [if_pos hguard]
        have hii : NpyArr_iterNextItem c = none := by
          unfold NpyArr_iterNextItem
          rw [if_pos hi]
        have hz : c.dim - c.index c.stridedim = 0 := by omega
        refine ⟨c, ?_, rfl, rfl, rfl, rfl, rfl, rfl, rfl, rfl, by omega,
          fun j _ => rfl, ?_⟩
        · rw [hstep, hnext, hii]
          dsimp only
          rw [hz, Nat.zero_mul]
        · rw [hz]
          push_cast
          ring
      · cases r with
        | zero =>
            -- leaf level with work left: switched, item loop runs
            have hcde : c.curdim = c.ndim := by omega
            have hguard : c.ndim ≤ c.curdim ∨ c.dim ≤ c.index c.stridedim :=
              Or.inl (by omega)
            have hnext : NpyArr_iterNext c = .switched (NpyArr_iterNextItem c) := by
              unfold NpyArr_iterNext
              rw [if_pos hguard]
            have hls : NpyArr_iterNextItem c = some (NpyArr_leafStep c) := by
              unfold NpyArr_iterNextItem
              rw [if_neg hi]
            have hib1 : (NpyArr_leafStep c).index (NpyArr_leafStep c).stridedim
                ≤ (NpyArr_leafStep c).dim := by
              simp only [leafStep_index, leafStep_stridedim, leafStep_dim, updIdx_same]
              omega
            have hf1 : ((NpyArr_leafStep c).dim
                - (NpyArr_leafStep c).index (NpyArr_leafStep c).stridedim) + 1 ≤ fuel := by
              simp only [leafStep_index, leafStep_stridedim, leafStep_dim, updIdx_same]
              simp only [needFuel] at hf
              omega
            obtain ⟨c2, hrun, hdims2, hstr2, htp2, hnd2, hcd2, hsd2, hdim2, hstrd2,
              hix2, hunt2, hdp2⟩ := itemLoop_spec fuel (NpyArr_leafStep c) hib1 hf1
            have hcnt : (NpyArr_leafStep c).dim
                - (NpyArr_leafStep c).index (NpyArr_leafStep c).stridedim
                = c.dim - c.index c.stridedim - 1 := by
              simp only [leafStep_index, leafStep_stridedim, leafStep_dim, updIdx_same]
              omega
            refine ⟨c2, ?_, ?_, ?_, ?_, ?_, ?_, ?_, ?_, ?_, ?_, ?_, ?_⟩
            · rw [hstep, hnext, hls]
              dsimp only
              rw [hrun]
              dsimp only
              rw [hcnt]
              have h11 : c.dim - c.index c.stridedim - 1 + 1
                  = c.dim - c.index c.stridedim := by omega
              rw [h11]
              have hP : prodBelow tp dims (dims.length - 1) 0 = 1 := rfl
              rw [hP, Nat.mul_one]
            · rw [hdims2, leafStep_dims]
            · rw [hstr2, leafStep_strides]
            · rw [htp2, leafStep_transpose]
            · rw [hnd2, leafStep_ndim]
            · rw [hcd2, leafStep_curdim]
            · rw [hsd2, leafStep_stridedim]
            · rw [hdim2, leafStep_dim]
            · rw [hstrd2, leafStep_stride]
            · have := hix2
              rw [leafStep_stridedim] at this
              rw [this, leafStep_dim]
            · intro j hju
              have hjs : j ≠ c.stridedim := by
                rw [hsd, hnd]
                exact hju 0 (Nat.le_refl 0)
              have h1 : c2.index j = (NpyArr_leafStep c).index j := by
                refine hunt2 j ?_
                rw [leafStep_stridedim]
                exact hjs
              rw [h1, leafStep_index, updIdx_other _ _ _ _ hjs]
            · rw [hdp2, hcnt]
              simp only [leafStep_dataptr, leafStep_stride]
              have h1 : c.dim - c.index c.stridedim
                  = (c.dim - c.index c.stridedim - 1) + 1 := by omega
              rw [h1]
              push_cast
              ring
        | succ r0 =>
            -- interior level with work left: descend, child runs, pop, continue
            have hndpos : 1 ≤ c.ndim := by omega
            have hcdlt : c.curdim < c.ndim := by omega
            have hguard : ¬ (c.ndim ≤ c.curdim ∨ c.dim ≤ c.index c.stridedim) := by
              push_neg
              exact ⟨by omega, by omega⟩
            have hnext : NpyArr_iterNext c = .descended (NpyArr_descendStep c) := by
              unfold NpyArr_iterNext
              rw [if_neg hguard]
            have hsax : c.stridedim = axisOf tp (dims.length - 1) (r0 + 1) := by
              rw [hsd, hnd]
            have hna : c.nextAxis = axisOf tp (dims.length - 1) r0 := by
              unfold NpyCtx.nextAxis axisOf
              rw [htp, hsax]
              unfold axisOf
              cases tp with
              | false => simp; omega
              | true => simp
            have haxne : ∀ r2, r2 ≤ r0 + 1 →
                ∀ r3, r3 ≤ r0 + 1 → r2 ≠ r3 →
                axisOf tp (dims.length - 1) r2 ≠ axisOf tp (dims.length - 1) r3 := by
              intro r2 h2 r3 h3 hne
              unfold axisOf
              have hb : r0 + 1 ≤ dims.length - 1 := by omega
              cases tp with
              | false => simp; omega
              | true => simp; omega
            have hsne : c.stridedim ≠ c.nextAxis := by
              rw [hsax, hna]
              exact haxne (r0 + 1) (Nat.le_refl _) r0 (by omega) (by omega)
            -- the descended child is well placed with r0 dimensions below
            have hg1 : GoodCtx dims strides tp r0 (NpyArr_descendStep c) := by
              refine ⟨?_, ?_, ?_, ?_, hlen, ?_, ?_, ?_, ?_, ?_⟩
              · rw [descendStep_dims, hdims]
              · rw [descendStep_strides, hstr]
              · rw [descendStep_transpose, htp]
              · rw [descendStep_ndim, hnd]
              · rw [descendStep_ndim]
                omega
              · rw [descendStep_curdim, descendStep_ndim]
                omega
              · rw [descendStep_stridedim, descendStep_ndim, hna, hnd]
              · rw [descendStep_dim, descendStep_stridedim, hdims]
              · rw [descendStep_stride, descendStep_stridedim, hstr]
            have hib1 : (NpyArr_descendStep c).index (NpyArr_descendStep c).stridedim
                ≤ (NpyArr_descendStep c).dim := by
              simp only [descendStep_index, descendStep_stridedim, updIdx_same]
              exact Nat.zero_le _
            have hnf : needFuel M (r0 + 1) (c.dim - c.index c.stridedim)
                = (c.dim - c.index c.stridedim) * (needFuel M r0 M + 1) + 1 := rfl
            have hn1 : c.dim - c.index c.stridedim
                = (c.dim - c.index c.stridedim - 1) + 1 := by omega
            have hfsplit : needFuel M r0 M + 1 ≤ fuel ∧
                (c.dim - c.index c.stridedim - 1) * (needFuel M r0 M + 1) + 1 ≤ fuel := by
              rw [hnf, hn1, Nat.succ_mul] at hf
              omega
            have hf1 : needFuel M r0 ((NpyArr_descendStep c).dim
                - (NpyArr_descendStep c).index (NpyArr_descendStep c).stridedim) ≤ fuel := by
              simp only [descendStep_index, descendStep_stridedim, descendStep_dim,
                updIdx_same, Nat.sub_zero]
              have h1 : c.dims.getD c.nextAxis 0 ≤ M := by
                rw [hdims]
                exact hM _
              have h2 := needFuel_mono M r0 h1
              omega
            obtain ⟨c2, hrun1, q1dims, q1str, q1tp, q1nd, q1cd, q1sd, q1dim, q1strd,
              q1ix, q1unt, q1dp⟩ := ih r0 (NpyArr_descendStep c) hg1 hib1 hf1
            -- facts about the popped state
            have hprev : c2.prevAxis = c.stridedim := by
              unfold NpyCtx.prevAxis
              rw [q1sd, q1tp, descendStep_stridedim, descendStep_transpose, htp, hna, hsax]
              unfold axisOf
              have hb : r0 + 1 ≤ dims.length - 1 := by omega
              cases tp with
              | false => simp; omega
              | true => simp
            have hc3cd : (NpyArrPassThru_iterEnd c2).curdim = c.curdim := by
              rw [passThruEnd_curdim, q1cd, descendStep_curdim]
              omega
            have hc3sd : (NpyArrPassThru_iterEnd c2).stridedim = c.stridedim := by
              rw [passThruEnd_stridedim, hprev]
            have hc3dims : (NpyArrPassThru_iterEnd c2).dims = c.dims := by
              rw [passThruEnd_dims, q1dims, descendStep_dims]
            have hc3str : (NpyArrPassThru_iterEnd c2).strides = c.strides := by
              rw [passThruEnd_strides, q1str, descendStep_strides]
            have hc3tp : (NpyArrPassThru_iterEnd c2).transpose = c.transpose := by
              rw [passThruEnd_transpose, q1tp, descendStep_transpose]
            have hc3nd : (NpyArrPassThru_iterEnd c2).ndim = c.ndim := by
              rw [passThruEnd_ndim, q1nd, descendStep_ndim]
            have hc3dim : (NpyArrPassThru_iterEnd c2).dim = c.dim := by
              rw [passThruEnd_dim, hprev, q1dims, descendStep_dims, hdims]
              exact hdim.symm
            have hc3strd : (NpyArrPassThru_iterEnd c2).stride = c.stride := by
              rw [passThruEnd_stride, hprev, q1str, descendStep_strides, hstr, hstrd]
            have hsnotchild : ∀ r2, r2 ≤ r0 →
                c.stridedim ≠ axisOf tp (dims.length - 1) r2 := by
              intro r2 h2
              rw [hsax]
              exact haxne (r0 + 1) (Nat.le_refl _) r2 (by omega) (by omega)
            have hc2ixs : c2.index c.stridedim = c.index c.stridedim + 1 := by
              have h1 : c2.index c.stridedim = (NpyArr_descendStep c).index c.stridedim := by
                refine q1unt c.stridedim ?_
                intro r2 h2
                exact hsnotchild r2 h2
              rw [h1, descendStep_index, updIdx_other _ _ _ _ hsne, updIdx_same]
            have hc3ix : (NpyArrPassThru_iterEnd c2).index c.stridedim
                = c.index c.stridedim + 1 := by
              rw [passThruEnd_index, hc2ixs]
            have hc3dp : (NpyArrPassThru_iterEnd c2).dataptr = c.dataptr + c.stride := by
              rw [passThruEnd_dataptr, q1dp, hprev, q1strd, q1str, q1sd, q1ix]
              simp only [descendStep_dataptr, descendStep_stride, descendStep_stridedim,
                descendStep_dim, descendStep_index, descendStep_strides, updIdx_same,
                Nat.sub_zero]
              rw [hstrd, hstr]
              ring
            -- the popped state is well placed to continue the level
            have hg3 : GoodCtx dims strides tp (r0 + 1) (NpyArrPassThru_iterEnd c2) := by
              refine ⟨?_, ?_, ?_, ?_, hlen, ?_, ?_, ?_, ?_, ?_⟩
              · rw [hc3dims, hdims]
              · rw [hc3str, hstr]
              · rw [hc3tp, htp]
              · rw [hc3nd, hnd]
              · rw [hc3nd]
                omega
              · rw [hc3cd, hc3nd, hcd]
              · rw [hc3sd, hc3nd, hsd]
              · rw [hc3dim, hc3sd, hdim]
              · rw [hc3strd, hc3sd, hstrd]
            have hib3 : (NpyArrPassThru_iterEnd c2).index
                (NpyArrPassThru_iterEnd c2).stridedim ≤ (NpyArrPassThru_iterEnd c2).dim := by
              rw [hc3sd, hc3ix, hc3dim]
              omega
            have hf3 : needFuel M (r0 + 1) ((NpyArrPassThru_iterEnd c2).dim
                - (NpyArrPassThru_iterEnd c2).index (NpyArrPassThru_iterEnd c2).stridedim)
                ≤ fuel := by
              rw [hc3sd, hc3ix, hc3dim]
              have he : c.dim - (c.index c.stridedim + 1)
                  = c.dim - c.index c.stridedim - 1 := by omega
              rw [he]
              have : needFuel M (r0 + 1) (c.dim - c.index c.stridedim - 1)
                  = (c.dim - c.index c.stridedim - 1) * (needFuel M r0 M + 1) + 1 := rfl
              rw [this]
              exact hfsplit.2
            obtain ⟨c4, hrun2, q2dims, q2str, q2tp, q2nd, q2cd, q2sd, q2dim, q2strd,
              q2ix, q2unt, q2dp⟩ := ih (r0 + 1) (NpyArrPassThru_iterEnd c2) hg3 hib3 hf3
            refine ⟨c4, ?_, ?_, ?_, ?_, ?_, ?_, ?_, ?_, ?_, ?_, ?_, ?_⟩
            · rw [hstep, hnext]
              dsimp only
              rw [hrun1]
              dsimp only
              rw [hrun2]
              dsimp only
              -- count arithmetic
              have hcnt1 : (NpyArr_descendStep c).dim
                  - (NpyArr_descendStep c).index (NpyArr_descendStep c).stridedim
                  = dims.getD (axisOf tp (dims.length - 1) r0) 0 := by
                simp only [descendStep_index, descendStep_stridedim, descendStep_dim,
                  updIdx_same, Nat.sub_zero]
                rw [hdims, hna]
              have hcnt2 : (NpyArrPassThru_iterEnd c2).dim
                  - (NpyArrPassThru_iterEnd c2).index (NpyArrPassThru_iterEnd c2).stridedim
                  = c.dim - c.index c.stridedim - 1 := by
                rw [hc3sd, hc3ix, hc3dim]
                omega
              rw [hcnt1, hcnt2]
              have hP : prodBelow tp dims (dims.length - 1) (r0 + 1)
                  = dims.getD (axisOf tp (dims.length - 1) r0) 0
                    * prodBelow tp dims (dims.length - 1) r0 := rfl
              have hmul : (c.dim - c.index c.stridedim)
                    * prodBelow tp dims (dims.length - 1) (r0 + 1)
                  = dims.getD (axisOf tp (dims.length - 1) r0) 0
                      * prodBelow tp dims (dims.length - 1) r0
                    + (c.dim - c.index c.stridedim - 1)
                      * prodBelow tp dims (dims.length - 1) (r0 + 1) := by
                conv_lhs => rw [hn1]
                rw [Nat.succ_mul, hP]
                omega
              rw [hmul]
            · rw [q2dims, hc3dims]
            · rw [q2str, hc3str]
            · rw [q2tp, hc3tp]
            · rw [q2nd, hc3nd]
            · rw [q2cd, hc3cd]
            · rw [q2sd, hc3sd]
            · rw [q2dim, hc3dim]
            · rw [q2strd, hc3strd]
            · have h1 := q2ix
              rw [hc3sd] at h1
              rw [h1, hc3dim]
            · intro j hju
              have h1 : c4.index j = (NpyArrPassThru_iterEnd c2).index j := q2unt j hju
              have h2 : c2.index j = (NpyArr_descendStep c).index j := by
                refine q1unt j ?_
                intro r2 h3
                exact hju r2 (by omega)
              have hjs : j ≠ c.stridedim := by
                rw [hsax]
                exact hju (r0 + 1) (Nat.le_refl _)
              have hjn : j ≠ c.nextAxis := by
                rw [hna]
                exact hju r0 (by omega)
              rw [h1, passThruEnd_index, h2, descendStep_index,
                updIdx_other _ _ _ _ hjn, updIdx_other _ _ _ _ hjs]
            · have h1 := q2dp
              rw [hc3sd, hc3ix, hc3dim, hc3strd, hc3dp] at h1
              rw [h1]
              have he : c.dim - (c.index c.stridedim + 1)
                  = c.dim - c.index c.stridedim - 1 := by omega
              rw [he, hn1]
              push_cast
              ring

theorem prodBelow_true_eq (dims : List Nat) (nd : Nat) :
    ∀ r, r ≤ dims.length → prodBelow true dims nd r = (dims.take r).prod := by
  intro r
  induction r with
  | zero => intro _; simp [prodBelow]
  | succ r0 ih =>
      intro h
      have hr0 : r0 ≤ dims.length := by omega
      have hlt : r0 < dims.length := by omega
      have hstep : prodBelow true dims nd (r0 + 1)
          = dims.getD (axisOf true nd r0) 0 * prodBelow true dims nd r0 := rfl
      have hax : axisOf true nd r0 = r0 := rfl
      rw [hstep, hax, ih hr0, List.take_succ]
      rw [List.getElem?_eq_getElem hlt]
      simp only [Option.toList_some, List.prod_append, List.prod_cons, List.prod_nil]
      rw [List.getD_eq_getElem dims 0 hlt]
      ring

theorem prodBelow_false_eq (dims : List Nat) (hd : dims ≠ []) :
    ∀ r, r ≤ dims.length - 1 →
      prodBelow false dims (dims.length - 1) r
        = (dims.drop (dims.length - r)).prod := by
  have hlen : 1 ≤ dims.length := by
    cases dims with
    | nil => exact absurd rfl hd
    | cons a tl => simp
  intro r
  induction r with
  | zero =>
      intro _
      have h1 : dims.length - 0 = dims.length := by omega
      rw [h1]
      simp [prodBelow]
  | succ r0 ih =>
      intro h
      have hr0 : r0 ≤ dims.length - 1 := by omega
      have hstep : prodBelow false dims (dims.length - 1) (r0 + 1)
          = dims.getD (axisOf false (dims.length - 1) r0) 0
            * prodBelow false dims (dims.length - 1) r0 := rfl
      have hax : axisOf false (dims.length - 1) r0 = dims.length - 1 - r0 := rfl
      have hklt : dims.length - 1 - r0 < dims.length := by omega
      rw [hstep, hax, ih hr0]
      have h2 : dims.length - r0 = (dims.length - 1 - r0) + 1 := by omega
      have h3 : dims.length - (r0 + 1) = dims.length - 1 - r0 := by omega
      rw [h2, h3, List.drop_eq_getElem_cons hklt, List.prod_cons,
        List.getD_eq_getElem dims 0 hklt]

/-- The full product of the axis sizes decomposes as the root axis size
times the product of all deeper axes, for both walk directions. -/
theorem prod_axis_decomp (dims : List Nat) (tp : Bool) (hd : dims ≠ []) :
    dims.getD (axisOf tp (dims.length - 1) (dims.length - 1)) 0
      * prodBelow tp dims (dims.length - 1) (dims.length - 1) = dims.prod := by
  have hlen : 1 ≤ dims.length := by
    cases dims with
    | nil => exact absurd rfl hd
    | cons a tl => simp
  have hndlt : dims.length - 1 < dims.length := by omega
  cases tp with
  | true =>
      have hax : axisOf true (dims.length - 1) (dims.length - 1) = dims.length - 1 := rfl
      rw [hax, prodBelow_true_eq dims (dims.length - 1) (dims.length - 1) (by omega)]
      have hdrop : (dims.drop (dims.length - 1)).prod = dims.getD (dims.length - 1) 0 := by
        rw [List.drop_eq_getElem_cons hndlt, List.prod_cons,
          List.getD_eq_getElem dims 0 hndlt]
        have h1 : dims.drop (dims.length - 1 + 1) = [] := by
          apply List.drop_eq_nil_of_le
          omega
        rw [h1, List.prod_nil, Nat.mul_one]
      calc dims.getD (dims.length - 1) 0 * (dims.take (dims.length - 1)).prod
          = (dims.take (dims.length - 1)).prod * (dims.drop (dims.length - 1)).prod := by
            rw [hdrop]; ring
        _ = dims.prod := List.prod_take_mul_prod_drop dims (dims.length - 1)
  | false =>
      have hax : axisOf false (dims.length - 1) (dims.length - 1) = 0 := by
        unfold axisOf
        simp
      rw [hax, prodBelow_false_eq dims hd (dims.length - 1) (Nat.le_refl _)]
      have h1 : dims.length - (dims.length - 1) = 1 := by omega
      rw [h1]
      have h0lt : 0 < dims.length := by omega
      rw [List.getD_eq_getElem dims 0 h0lt]
      have h2 : dims.drop 0 = dims[0] :: dims.drop 1 := List.drop_eq_getElem_cons h0lt
      calc dims[0] * (List.drop 1 dims).prod
          = (dims.drop 0).prod := by rw [h2, List.prod_cons]
        _ = dims.prod := by rw [List.drop_zero]


/-- CLAIM C4. For every k-dimensional array walked by the strider, with
or without transpose and whatever the strides and the uninitialised
counter entries, the complete writer-driven traversal finishes within
the modelled fuel and the number of successful leaf-phase next calls
equals the product of the axis sizes. -/
theorem strider_leaf_count (dims : List Nat) (strides : List Int)
    (tp : Bool) (i0 : Nat → Nat) (hd : dims ≠ []) :
    NpyArr_leafCount dims strides tp i0 = some dims.prod := by
  have hlen : 1 ≤ dims.length := by
    cases dims with
    | nil => exact absurd rfl hd
    | cons a tl => simp
  have hM : ∀ j, dims.getD j 0 ≤ maxDim dims := getD_le_maxDim dims
  have hgood : GoodCtx dims strides tp (dims.length - 1)
      (NpyArr_iterBegin dims strides tp i0) := by
    refine ⟨rfl, rfl, rfl, rfl, hlen, ?_, ?_, ?_, ?_, ?_⟩
    · show dims.length - 1 ≤ dims.length - 1
      exact Nat.le_refl _
    · show (0 : Nat) = (dims.length - 1) - (dims.length - 1)
      omega
    · show (if tp then dims.length - 1 else 0)
          = axisOf tp (dims.length - 1) (dims.length - 1)
      unfold axisOf
      cases tp with
      | true => simp
      | false => simp
    · rfl
    · rfl
  have hib : (NpyArr_iterBegin dims strides tp i0).index
      (NpyArr_iterBegin dims strides tp i0).stridedim
      ≤ (NpyArr_iterBegin dims strides tp i0).dim := by
    show updIdx i0 (if tp then dims.length - 1 else 0) 0
        (if tp then dims.length - 1 else 0) ≤ _
    rw [updIdx_same]
    exact Nat.zero_le _
  have hiz : (NpyArr_iterBegin dims strides tp i0).index
      (NpyArr_iterBegin dims strides tp i0).stridedim = 0 := by
    show updIdx i0 (if tp then dims.length - 1 else 0) 0
        (if tp then dims.length - 1 else 0) = 0
    rw [updIdx_same]
  have hfuel : needFuel (maxDim dims) (dims.length - 1)
      ((NpyArr_iterBegin dims strides tp i0).dim
        - (NpyArr_iterBegin dims strides tp i0).index
            (NpyArr_iterBegin dims strides tp i0).stridedim)
      ≤ needFuel (maxDim dims) (NpyArr_iterBegin dims strides tp i0).ndim
          (maxDim dims) := by
    have hnd : (NpyArr_iterBegin dims strides tp i0).ndim = dims.length - 1 := rfl
    rw [hnd, hiz, Nat.sub_zero]
    exact needFuel_mono (maxDim dims) (dims.length - 1) (hM _)
  obtain ⟨c2, hrun, _, _, _, _, _, _, _, _, _, _, _⟩ :=
    runLevel_spec dims strides tp (maxDim dims) hM
      (needFuel (maxDim dims) (NpyArr_iterBegin dims strides tp i0).ndim (maxDim dims))
      (dims.length - 1) (NpyArr_iterBegin dims strides tp i0) hgood hib hfuel
  unfold NpyArr_leafCount
  dsimp only
  rw [hrun]
  have hcnt : (NpyArr_iterBegin dims strides tp i0).dim
      - (NpyArr_iterBegin dims strides tp i0).index
          (NpyArr_iterBegin dims strides tp i0).stridedim
      = dims.getD (axisOf tp (dims.length - 1) (dims.length - 1)) 0 := by
    rw [hiz, Nat.sub_zero]
    show dims.getD (if tp then dims.length - 1 else 0) 0 = _
    unfold axisOf
    cases tp with
    | true => simp
    | false => simp
  rw [hcnt]
  rw [prod_axis_decomp dims tp hd]

/-- Witness for C4 on a transposed 2 x 3 array: six leaves counted. -/
theorem strider_leaf_count_witness :
    (([2, 3] : List Nat) ≠ []) ∧
    NpyArr_leafCount [2, 3] [1, 2] true (fun _ => 7) = some 6 :=
  ⟨by decide, strider_leaf_count [2, 3] [1, 2] true (fun _ => 7) (by decide)⟩

end PandasUjson
